import Mathlib

/-
Verification of the structured-document formatter of the ai_resume_builder
repository.  The formatter is Python (src/agents/markdown_formatting_agent.py
and src/core/pdf_docx_generator.py); we embed it shallowly: Python strings
become `List Char`, and the Python string methods used by the code
(`split`, `split(sep, 1)`, `strip`, `replace`, `startswith`, `endswith`,
`upper`, `join`, membership `in`) are reimplemented below with Python's
semantics.  Fallible code paths (a two-variable unpacking of a split that
may not produce two pieces, i.e. a `ValueError`) are modelled with `Option`.
-/

namespace AiResume

/-- Characters of a Python string, as a list. -/
abbrev Str := List Char

/-- Build a `Str` from a Lean string literal. -/
def str (s : String) : Str := s.data

/-- The whitespace recognized by Python `str.strip()` (ASCII part). -/
def isPySpace (c : Char) : Bool :=
  c == ' ' || c == '\t' || c == '\n' || c == '\r' || c == '\x0b' || c == '\x0c'

/-- Python `s.strip()`: remove leading and trailing whitespace. -/
def pyStrip (s : Str) : Str :=
  ((s.dropWhile isPySpace).reverse.dropWhile isPySpace).reverse

/-- Python `s.startswith(p)` (first argument is the pattern `p`). -/
def pyStartsWith : Str → Str → Bool
  | [], _ => true
  | _ :: _, [] => false
  | c :: cs, x :: xs => c == x && pyStartsWith cs xs

/-- Python `s.endswith(p)` (first argument is the pattern `p`). -/
def pyEndsWith (p s : Str) : Bool := pyStartsWith p.reverse s.reverse

/-- Leftmost-occurrence split: `some (before, after)` when `sep` occurs in
`s` (so `s = before ++ sep ++ after` at the first occurrence), `none`
otherwise.  This is Python `s.split(sep, 1)` restricted to the two-element
case; `none` marks the `ValueError` raised when a two-variable unpacking
meets a one-element split result. -/
def pySplitOnce (sep : Str) : Str → Option (Str × Str)
  | [] => none
  | c :: cs =>
    if pyStartsWith sep (c :: cs) then some ([], List.drop sep.length (c :: cs))
    else
      match pySplitOnce sep cs with
      | none => none
      | some (a, b) => some (c :: a, b)

/-- Fuelled worker for Python `s.split(sep)` (all occurrences, left to
right, non-overlapping).  The fuel only needs to exceed `s.length`. -/
def pySplitAux (sep : Str) : Nat → Str → List Str
  | 0, s => [s]
  | fuel + 1, s =>
    match pySplitOnce sep s with
    | none => [s]
    | some (a, b) => a :: pySplitAux sep fuel b

/-- Python `s.split(sep)` for a non-empty separator. -/
def pySplit (sep s : Str) : List Str := pySplitAux sep (s.length + 1) s

/-- Python `sub in s` for a non-empty `sub`. -/
def pyContains (sub s : Str) : Bool := (pySplitOnce sub s).isSome

/-- Python `sep.join(xs)`. -/
def pyJoin (sep : Str) (xs : List Str) : Str := List.intercalate sep xs

/-- Python `s.replace(old, new)` for a non-empty `old`. -/
def pyReplace (old new s : Str) : Str := pyJoin new (pySplit old s)

/-- Python `s.upper()` (the inputs handled by the generator are ASCII). -/
def pyUpper (s : Str) : Str := s.map Char.toUpper

/- ### Basic lemmas about the string primitives -/

theorem pyStartsWith_eq_true_iff :
    ∀ {p s : Str}, pyStartsWith p s = true ↔ ∃ t, s = p ++ t := by
  intro p
  induction p with
  | nil =>
    intro s
    simp [pyStartsWith]
  | cons c cs ih =>
    intro s
    cases s with
    | nil =>
      simp [pyStartsWith]
    | cons x xs =>
      simp only [pyStartsWith, Bool.and_eq_true, beq_iff_eq, ih]
      constructor
      · rintro ⟨rfl, t, rfl⟩
        exact ⟨t, rfl⟩
      · rintro ⟨t, h⟩
        cases h
        exact ⟨rfl, t, rfl⟩

theorem pySplitOnce_some_length {sep : Str} (hsep : sep ≠ []) :
    ∀ {s a b : Str}, pySplitOnce sep s = some (a, b) → b.length < s.length := by
  intro s
  induction s with
  | nil => intro a b h; simp [pySplitOnce] at h
  | cons c cs ih =>
    intro a b h
    simp only [pySplitOnce] at h
    by_cases hpre : pyStartsWith sep (c :: cs) = true
    · rw [if_pos hpre] at h
      obtain ⟨h1, h2⟩ := Option.some.injEq _ _ ▸ h
      cases h
      have hlen : 1 ≤ sep.length := by
        cases sep with
        | nil => exact absurd rfl hsep
        | cons d ds => simp
      have : (List.drop sep.length (c :: cs)).length = (c :: cs).length - sep.length := by
        simp
      simp only [this]
      simp only [List.length_cons]
      omega
    · rw [if_neg hpre] at h
      cases hrec : pySplitOnce sep cs with
      | none => rw [hrec] at h; exact absurd h (by simp)
      | some ab =>
        obtain ⟨a', b'⟩ := ab
        rw [hrec] at h
        have hb : b = b' := by
          have := h
          simp at this
          exact this.2.symm
        subst hb
        have := ih hrec
        simp only [List.length_cons]
        omega

theorem pySplitAux_fuel {sep : Str} (hsep : sep ≠ []) :
    ∀ (fuel₁ fuel₂ : Nat) (s : Str), s.length < fuel₁ → s.length < fuel₂ →
      pySplitAux sep fuel₁ s = pySplitAux sep fuel₂ s := by
  intro fuel₁
  induction fuel₁ with
  | zero => intro fuel₂ s h1 h2; omega
  | succ f ih =>
    intro fuel₂ s h1 h2
    cases fuel₂ with
    | zero => omega
    | succ f₂ =>
      simp only [pySplitAux]
      cases h : pySplitOnce sep s with
      | none => rfl
      | some ab =>
        obtain ⟨a, b⟩ := ab
        have hb := pySplitOnce_some_length hsep h
        exact congrArg (a :: ·) (ih f₂ b (by omega) (by omega))

/-- `pySplit` satisfies the natural one-step unfolding. -/
theorem pySplit_eq {sep : Str} (hsep : sep ≠ []) (s : Str) :
    pySplit sep s =
      match pySplitOnce sep s with
      | none => [s]
      | some (a, b) => a :: pySplit sep b := by
  cases h : pySplitOnce sep s with
  | none =>
    simp only [pySplit, pySplitAux, h]
  | some ab =>
    obtain ⟨a, b⟩ := ab
    have hb := pySplitOnce_some_length hsep h
    have h1 : pySplit sep s = a :: pySplitAux sep s.length b := by
      simp only [pySplit, pySplitAux, h]
    rw [h1]
    simp only [h, pySplit]
    exact congrArg (a :: ·) (pySplitAux_fuel hsep s.length (b.length + 1) b (by omega) (by omega))

theorem pySplitOnce_of_startsWith {sep s : Str} (hsep : sep ≠ [])
    (h : pyStartsWith sep s = true) :
    pySplitOnce sep s = some ([], List.drop sep.length s) := by
  cases s with
  | nil =>
    exfalso
    cases sep with
    | nil => exact hsep rfl
    | cons c cs => simp [pyStartsWith] at h
  | cons x xs => simp [pySplitOnce, h]

theorem pySplitOnce_cons_of_not_startsWith {sep : Str} {c : Char} {t : Str}
    (h : pyStartsWith sep (c :: t) = false) :
    pySplitOnce sep (c :: t) =
      (pySplitOnce sep t).map (fun q => (c :: q.1, q.2)) := by
  simp only [pySplitOnce, h]
  cases pySplitOnce sep t with
  | none => simp
  | some ab => obtain ⟨a, b⟩ := ab; simp

theorem pyStartsWith_cons_head_ne {h : Char} {sep' : Str} {x : Char} {xs : Str}
    (hne : x ≠ h) : pyStartsWith (h :: sep') (x :: xs) = false := by
  simp only [pyStartsWith, Bool.and_eq_false_iff, beq_eq_false_iff_ne, ne_eq]
  exact Or.inl fun hh => hne hh.symm

/-- Scanning past a block none of whose characters can start the separator. -/
theorem pySplitOnce_append_left {h : Char} {sep' : Str} :
    ∀ {p t : Str}, (∀ x ∈ p, x ≠ h) →
      pySplitOnce (h :: sep') (p ++ t) =
        (pySplitOnce (h :: sep') t).map (fun q => (p ++ q.1, q.2)) := by
  intro p
  induction p with
  | nil =>
    intro t _
    cases hh : pySplitOnce (h :: sep') t with
    | none => simp [hh]
    | some ab => obtain ⟨a, b⟩ := ab; simp [hh]
  | cons x xs ih =>
    intro t hp
    have hx : x ≠ h := hp x (by simp)
    have hxs : ∀ y ∈ xs, y ≠ h := fun y hy => hp y (by simp [hy])
    rw [List.cons_append,
      pySplitOnce_cons_of_not_startsWith (pyStartsWith_cons_head_ne hx), ih hxs]
    cases pySplitOnce (h :: sep') t with
    | none => simp
    | some ab => obtain ⟨a, b⟩ := ab; simp

/-- No character of `s` can start the separator, so no occurrence. -/
theorem pySplitOnce_none_of_headFree {h : Char} {sep' s : Str}
    (hs : ∀ x ∈ s, x ≠ h) : pySplitOnce (h :: sep') s = none := by
  have := @pySplitOnce_append_left h sep' s [] hs
  simpa [pySplitOnce] using this

theorem pyJoin_nil_eq_flatten : ∀ xs : List Str, pyJoin [] xs = xs.flatten := by
  intro xs
  induction xs with
  | nil => simp [pyJoin, List.intercalate]
  | cons a rest ih =>
    cases rest with
    | nil => simp [pyJoin, List.intercalate]
    | cons b t =>
      simp only [pyJoin, List.intercalate, List.intersperse] at ih ⊢
      simp only [List.flatten_cons] at ih ⊢
      simpa using ih

/- ### Lemmas about `pyStrip` -/

theorem pyStrip_nil : pyStrip [] = [] := rfl

theorem pyStrip_cons_space {x : Char} (hx : isPySpace x = true) (s : Str) :
    pyStrip (x :: s) = pyStrip s := by
  simp [pyStrip, List.dropWhile_cons, hx]

theorem pyStrip_append_space {y : Char} (hy : isPySpace y = true) (s : Str) :
    pyStrip (s ++ [y]) = pyStrip s := by
  simp only [pyStrip, List.dropWhile_append]
  by_cases h : (List.dropWhile isPySpace s).isEmpty = true
  · simp [h, List.dropWhile_cons, hy, List.isEmpty_iff.mp h]
  · simp [h, List.reverse_append, List.dropWhile_cons, hy]

theorem pyStrip_head_nonspace {x : Char} (hx : isPySpace x = false) (s : Str) :
    ∃ w, pyStrip (x :: s) = x :: w := by
  simp only [pyStrip, List.dropWhile_cons, hx, Bool.false_eq_true, if_neg,
    List.reverse_cons, List.dropWhile_append]
  by_cases h : (List.dropWhile isPySpace s.reverse).isEmpty = true
  · exact ⟨[], by simp [List.dropWhile_append, h, List.dropWhile_cons, hx]⟩
  · exact ⟨(List.dropWhile isPySpace s.reverse).reverse,
      by simp [List.dropWhile_append, h]⟩

theorem pyStrip_sandwich {x y : Char} (hx : isPySpace x = false)
    (hy : isPySpace y = false) (m : Str) :
    pyStrip (x :: m ++ [y]) = x :: m ++ [y] := by
  have h1 : List.dropWhile isPySpace (x :: m ++ [y]) = x :: m ++ [y] := by
    simp [List.dropWhile_cons, hx]
  simp only [pyStrip, h1, List.reverse_append, List.reverse_cons, List.reverse_nil,
    List.nil_append, List.singleton_append, List.dropWhile_cons, hy]
  simp

theorem pyStrip_single {x : Char} (hx : isPySpace x = false) :
    pyStrip [x] = [x] := by
  simp [pyStrip, List.dropWhile_cons, hx]

theorem pyStrip_length_le (s : Str) : (pyStrip s).length ≤ s.length := by
  simp only [pyStrip, List.length_reverse]
  calc (List.dropWhile isPySpace (List.dropWhile isPySpace s).reverse).length
      ≤ (List.dropWhile isPySpace s).reverse.length :=
        (List.dropWhile_sublist _).length_le
    _ = (List.dropWhile isPySpace s).length := by simp
    _ ≤ s.length := (List.dropWhile_sublist _).length_le

theorem head_nonspace_of_pyStrip_eq {x : Char} {t : Str}
    (h : pyStrip (x :: t) = x :: t) : isPySpace x = false := by
  by_contra hx
  have hx' : isPySpace x = true := by
    cases hhx : isPySpace x with
    | false => exact absurd hhx hx
    | true => rfl
  have h2 := pyStrip_cons_space hx' t
  rw [h] at h2
  have h3 : (pyStrip t).length ≤ t.length := pyStrip_length_le t
  rw [← h2] at h3
  simp at h3

theorem last_nonspace_of_pyStrip_eq {y : Char} {t : Str}
    (h : pyStrip (t ++ [y]) = t ++ [y]) : isPySpace y = false := by
  by_contra hy
  have hy' : isPySpace y = true := by
    cases hhy : isPySpace y with
    | false => exact absurd hhy hy
    | true => rfl
  have h2 := pyStrip_append_space hy' t
  rw [h] at h2
  have h3 : (pyStrip t).length ≤ t.length := pyStrip_length_le t
  rw [← h2] at h3
  simp at h3

/-- A non-empty stripped string starts with a non-space character. -/
theorem exists_head_of_stripped {s : Str} (hs : pyStrip s = s) (hne : s ≠ []) :
    ∃ x t, s = x :: t ∧ isPySpace x = false := by
  cases s with
  | nil => exact absurd rfl hne
  | cons x t => exact ⟨x, t, rfl, head_nonspace_of_pyStrip_eq hs⟩

/-- A non-empty stripped string ends with a non-space character. -/
theorem exists_last_of_stripped {s : Str} (hs : pyStrip s = s) (hne : s ≠ []) :
    ∃ t y, s = t ++ [y] ∧ isPySpace y = false := by
  rcases List.eq_nil_or_concat s with h | ⟨t, y, h⟩
  · exact absurd h hne
  · rw [List.concat_eq_append] at h
    subst h
    exact ⟨t, y, rfl, last_nonspace_of_pyStrip_eq hs⟩

/- ### Embedding of src/agents/markdown_formatting_agent.py

Python dictionaries become records of `Option` fields (`none` = key absent);
`dict.get(k, default)` is `Option.getD`.  The skills dictionary becomes an
association list (Python dicts iterate in insertion order). -/

/-- The `contact` sub-dictionary of the user profile. -/
structure Contact where
  phone : Option Str := none
  github : Option Str := none
  linkedin : Option Str := none
  email : Option Str := none
deriving DecidableEq

/-- The user-profile dictionary (the identity record). -/
structure UserProfile where
  name : Option Str := none
  contact : Option Contact := none
deriving DecidableEq

/-- An experience / project / education item dictionary.  Python items are
plain dicts, so one record carries every key the agent ever reads. -/
structure Item where
  title : Option Str := none
  company : Option Str := none
  location : Option Str := none
  dates : Option Str := none
  name : Option Str := none
  technologies : Option Str := none
  degree : Option Str := none
  institution : Option Str := none
  responsibilities : Option (List Str) := none
  description : Option (List Str) := none
deriving DecidableEq

/-- The tailored-content dictionary fed to `MarkdownFormattingAgent.run`. -/
structure TailoredContent where
  tailored_skills : Option (List (Str × List Str)) := none
  tailored_experience : Option (List Item) := none
  tailored_projects : Option (List Item) := none
  education : Option (List Item) := none
deriving DecidableEq

/-- Python truthiness of `d.get(key)` for a list/dict value: present and
non-empty. -/
def truthy {α : Type} (o : Option (List α)) : Bool :=
  match o with
  | none => false
  | some l => !l.isEmpty

/-- `MarkdownFormattingAgent._format_contact`: join the non-falsy contact
fields (fixed order) with a " | " delimiter; `filter(None, parts)` drops both
absent and empty fields. -/
def formatContact (c : Contact) : Str :=
  pyJoin (str " | ")
    (([c.phone, c.github, c.linkedin, c.email].filterMap id).filter (· ≠ []))

/-- `point.replace('**', '').replace('*', '').replace('`', '')` from
`_format_experience_or_projects`. -/
def cleanPoint (p : Str) : Str :=
  pyReplace (str "`") [] (pyReplace (str "*") [] (pyReplace (str "**") [] p))

/-- The lines `_format_experience_or_projects` emits for one item. -/
def formatItemLines (is_project : Bool) (item : Item) : List Str :=
  (if is_project then
      str "**" ++ item.name.getD [] ++ str "** | *" ++ item.technologies.getD [] ++ str "*"
    else
      str "**" ++ item.title.getD [] ++ str "** | " ++ item.company.getD [] ++
        str " | " ++ item.location.getD [] ++ str " ||| " ++ item.dates.getD []) ::
  ((if is_project then item.description else item.responsibilities).getD []).map
      (fun point => str "- " ++ cleanPoint point) ++
  [[]]

/-- `MarkdownFormattingAgent._format_experience_or_projects`. -/
def formatExperienceOrProjects (title : Str) (items : List Item)
    (is_project : Bool) : List Str :=
  (str "## " ++ title) :: items.flatMap (formatItemLines is_project)

/-- `MarkdownFormattingAgent._format_skills`: one `**category:** items` line
per category with a non-empty (truthy) skill list. -/
def formatSkills (skills : List (Str × List Str)) : List Str :=
  (str "## Skills") ::
    skills.filterMap (fun cs =>
      if cs.2.isEmpty then none
      else some (str "**" ++ cs.1 ++ str ":** " ++ pyJoin (str ", ") cs.2))

/-- `MarkdownFormattingAgent._format_education`. -/
def formatEducation (items : List Item) : List Str :=
  (str "## Education") ::
    items.flatMap (fun item =>
      [str "**" ++ item.degree.getD [] ++ str "** ||| " ++ item.dates.getD [],
       str "*" ++ item.institution.getD [] ++ str "*",
       []])

/-- The list `resume_parts` built by `MarkdownFormattingAgent.run` before the
final `"\n".join(...)`; each element is one markup line. -/
def resumeParts (p : UserProfile) (tc : TailoredContent) : List Str :=
  [str "# " ++ p.name.getD (str "User Name"),
   formatContact (p.contact.getD {}),
   []] ++
  (if truthy tc.tailored_skills then
    formatSkills (tc.tailored_skills.getD []) ++ [[]]
   else []) ++
  (if truthy tc.tailored_experience then
    formatExperienceOrProjects (str "Experience") (tc.tailored_experience.getD []) false
   else []) ++
  (if truthy tc.tailored_projects then
    formatExperienceOrProjects (str "Projects") (tc.tailored_projects.getD []) true
   else []) ++
  (if truthy tc.education then formatEducation (tc.education.getD []) else [])

/-- `MarkdownFormattingAgent.run`: `"\n".join(resume_parts).strip()`. -/
def agentRun (p : UserProfile) (tc : TailoredContent) : Str :=
  pyStrip (pyJoin (str "\n") (resumeParts p tc))

/- ### Embedding of src/core/pdf_docx_generator.py (`PdfDocxGenerator`)

The python-docx `Document` is modelled as the ordered list of content blocks
`to_docx` appends to it; purely typographic constants (margins, font sizes,
spacing, border XML) carry no claim-relevant content and are not modelled. -/

/-- One styled text run (`paragraph.add_run(text)` plus bold/italic flags). -/
structure TextRun where
  text : Str
  bold : Bool
  italic : Bool
deriving DecidableEq

/-- One populated skills-table cell: the bold `category:` run and the plain
skills run, post cleaning (`replace('**','').strip()`). -/
structure SkillCell where
  category : Str
  skills : Str
deriving DecidableEq

/-- The blocks `to_docx` appends to the document, in order. -/
inductive Block where
  | titlePara (text : Str)
  | contactPara (text : Str)
  | skillsBanner
  | sectionBanner (text : Str)
  | skillsTable (rows : List (SkillCell × Option SkillCell))
  | entryTable (left : List TextRun) (right : TextRun)
  | bulletPara (text : Str)
deriving DecidableEq

/-- One skills line's `split(':', 1)` and cell cleanup from
`_add_skills_table_docx`; `none` is the `ValueError` of the two-variable
unpacking when the line has no colon. -/
def mkSkillCell (l : Str) : Option SkillCell :=
  match pySplitOnce (str ":") l with
  | none => none
  | some (rawCategory, rawSkills) =>
    some ⟨pyStrip (pyReplace (str "**") [] rawCategory),
          pyStrip (pyReplace (str "**") [] rawSkills)⟩

/-- The row-filling loop of `_add_skills_table_docx`: row `i` takes
`left[i]` and, when present, `right[i]`. -/
def buildSkillRows : List Str → List Str → Option (List (SkillCell × Option SkillCell))
  | [], _ => some []
  | l :: ls, rs =>
    match mkSkillCell l with
    | none => none
    | some cl =>
      match rs with
      | [] =>
        match buildSkillRows ls [] with
        | none => none
        | some rows => some ((cl, none) :: rows)
      | r :: rs' =>
        match mkSkillCell r with
        | none => none
        | some cr =>
          match buildSkillRows ls rs' with
          | none => none
          | some rows => some ((cl, some cr) :: rows)

/-- `PdfDocxGenerator._add_skills_table_docx`: no table for zero lines;
otherwise split at `ceil(n/2)` and fill rows left-column-first. -/
def addSkillsTable (skillLines : List Str) : Option (List Block) :=
  if skillLines.isEmpty then some []
  else
    match buildSkillRows
        (skillLines.take ((skillLines.length + 1) / 2))
        (skillLines.drop ((skillLines.length + 1) / 2)) with
    | none => none
    | some rows => some [Block.skillsTable rows]

/-- The `'**' and '|||'` branch of `to_docx` (the two-column entry header):
`line.split('|||')` must unpack into exactly two pieces, the left piece is
`'**'`-cleaned and split on every `'|'` keeping `parts[0]` (bold) and
`parts[1]` (plain, after a `' | '`), the right piece keeps one run with all
asterisks removed, italic when the right text starts and ends with `'*'`. -/
def entryHeaderBlock (line : Str) : Option Block :=
  match pySplit (str "|||") line with
  | [lraw, rraw] =>
    let leftContent := pyStrip lraw
    let rightContent := pyStrip rraw
    let cleanedLeft := pyStrip (pyReplace (str "**") [] leftContent)
    let parts := pySplit (str "|") cleanedLeft
    let leftRuns :=
      match parts with
      | [] => []
      | p0 :: rest =>
        (⟨pyStrip p0, true, false⟩ : TextRun) ::
          (match rest with
           | [] => []
           | p1 :: _ => [(⟨str " | " ++ pyStrip p1, false, false⟩ : TextRun)])
    let isItalic := pyStartsWith (str "*") rightContent &&
      pyEndsWith (str "*") rightContent
    let cleanedRight :=
      pyStrip (pyReplace (str "*") [] (pyReplace (str "**") [] rightContent))
    some (Block.entryTable leftRuns ⟨cleanedRight, false, isItalic⟩)
  | _ => none

/-- The `lines[i].strip().startswith('**')` test of the skills-collection
inner loop. -/
def isSkillLine (x : Str) : Bool := pyStartsWith (str "**") (pyStrip x)

/-- Fuelled worker for the `while i < len(lines)` dispatch loop of
`to_docx`; the fuel only needs to exceed the number of lines (the wrapper
`processLines` supplies it), so the fuel-exhausted value is never reached. -/
def processLinesF : Nat → List Str → Option (List Block)
  | _, [] => some []
  | 0, _ :: _ => none
  | fuel + 1, l :: rest =>
    if (pyStrip l).isEmpty then processLinesF fuel rest
    else if pyStartsWith (str "# ") (pyStrip l) then
      (processLinesF fuel rest).map
        (Block.titlePara (pyReplace (str "# ") [] (pyStrip l)) :: ·)
    else if pyContains (str " | ") (pyStrip l) && pyContains (str "@") (pyStrip l) then
      (processLinesF fuel rest).map (Block.contactPara (pyStrip l) :: ·)
    else if pyStartsWith (str "## ") (pyStrip l) then
      if pyContains (str "SKILLS") (pyUpper (pyStrip l)) then
        match addSkillsTable ((rest.takeWhile isSkillLine).map pyStrip) with
        | none => none
        | some tbl =>
          (processLinesF fuel (rest.dropWhile isSkillLine)).map
            (fun bs => Block.skillsBanner :: (tbl ++ bs))
      else
        (processLinesF fuel rest).map
          (Block.sectionBanner (pyUpper (pyReplace (str "## ") [] (pyStrip l))) :: ·)
    else if pyStartsWith (str "**") (pyStrip l) && pyContains (str "|||") (pyStrip l) then
      match entryHeaderBlock (pyStrip l) with
      | none => none
      | some b => (processLinesF fuel rest).map (b :: ·)
    else if pyStartsWith (str "- ") (pyStrip l) then
      (processLinesF fuel rest).map (Block.bulletPara ((pyStrip l).drop 2) :: ·)
    else
      processLinesF fuel rest

/-- The line-dispatch loop of `to_docx` over an already-split line list. -/
def processLines (lines : List Str) : Option (List Block) :=
  processLinesF (lines.length + 1) lines

/-- `PdfDocxGenerator.to_docx`: split the markdown on newlines and dispatch
each line; `none` models an escaping exception (no document is saved). -/
def to_docx (markdown : Str) : Option (List Block) :=
  processLines (pySplit (str "\n") markdown)

/- ### Embedding of `PdfDocxGenerator.to_pdf` and the export pipeline

`to_pdf` writes a DOCX into a fresh temporary directory, calls the external
`docx2pdf.convert` on that file, catches any exception (logging it), and the
`with tempfile.TemporaryDirectory()` block removes the temporary file on
every path.  The filesystem is an association list path ↦ artifact, and the
external converter is an oracle (its availability flag and its
content-to-content rendering function). -/

/-- A file produced by the pipeline. -/
inductive Artifact where
  | docxFile (blocks : List Block)
  | pdfFile (blocks : List Block)
deriving DecidableEq

/-- The filesystem: newest write first. -/
abbrev FileSys := List (Str × Artifact)

/-- Read the file at path `p`. -/
def fsGet (fs : FileSys) (p : Str) : Option Artifact :=
  match fs with
  | [] => none
  | (q, a) :: rest => if q = p then some a else fsGet rest p

/-- Write artifact `a` at path `p`. -/
def fsSet (fs : FileSys) (p : Str) (a : Artifact) : FileSys := (p, a) :: fs

/-- Delete the file at path `p` (the temporary-directory cleanup). -/
def fsErase (fs : FileSys) (p : Str) : FileSys :=
  match fs with
  | [] => []
  | (q, a) :: rest => if q = p then fsErase rest p else (q, a) :: fsErase rest p

/-- The external `docx2pdf.convert` collaborator: whether the conversion
capability is available, and what PDF content it renders from DOCX content. -/
structure ConvertOracle where
  ok : Bool
  render : List Block → List Block

/-- The outcome of a `to_pdf` call: the filesystem afterwards, the log lines
emitted, and whether an exception propagated to the caller. -/
structure PdfResult where
  fs : FileSys
  log : List Str
  raised : Bool

/-- `logging.error(f"An error occurred during PDF conversion: {e}")`. -/
def convertErrorLog : Str := str "An error occurred during PDF conversion"

/-- `logging.info("High-fidelity PDF generation complete.")`. -/
def pdfDoneLog : Str := str "High-fidelity PDF generation complete."

/-- `PdfDocxGenerator.to_pdf`: build the DOCX at the temporary path, convert
that file to `outputPath`, catch-and-log any exception (from `to_docx` or
from `convert` — both run inside the `try`), and remove the temporary file. -/
def to_pdf (markdown : Str) (tmpPath outputPath : Str) (oracle : ConvertOracle)
    (fs0 : FileSys) : PdfResult :=
  match to_docx markdown with
  | none =>
    { fs := fsErase fs0 tmpPath, log := [convertErrorLog], raised := false }
  | some blocks =>
    let fs1 := fsSet fs0 tmpPath (Artifact.docxFile blocks)
    if oracle.ok then
      match fsGet fs1 tmpPath with
      | some (Artifact.docxFile bs) =>
        { fs := fsErase (fsSet fs1 outputPath (Artifact.pdfFile (oracle.render bs))) tmpPath,
          log := [pdfDoneLog], raised := false }
      | _ =>
        { fs := fsErase fs1 tmpPath, log := [convertErrorLog], raised := false }
    else
      { fs := fsErase fs1 tmpPath, log := [convertErrorLog], raised := false }

/-- The spec's description of the two-stage export, as its own definition:
the fixed-layout output is exactly the external conversion applied to the
editable document that `to_docx` produces from the same markup. -/
def toPdfSpec (render : List Block → List Block) (markdown : Str) : Option Artifact :=
  (to_docx markdown).map (fun bs => Artifact.pdfFile (render bs))

/- ### Determinism model for the full formatting pipeline -/

/-- The ambient world state a run could in principle observe: wall-clock
time, a random seed, and how many calls happened before.  The repository's
formatter reads none of these; threading them makes that a provable
statement rather than an assumption. -/
structure Env where
  wallClock : Nat
  randomSeed : Nat
  priorCalls : Nat
deriving DecidableEq

/-- Decimal digits of a number, for log timestamps. -/
def natStr (n : Nat) : Str := (toString n).data

/-- Modelled from the spec: the byte serialization of the editable document
(python-docx `Document.save`, which is outside this repository) as a pure
structural encoding of the document content, following §5's statement that
formatting is deterministic and produces identical results for identical
input. -/
def strBytes (s : Str) : List Nat := s.length :: s.map Char.toNat

def runBytes (r : TextRun) : List Nat :=
  (cond r.bold 1 0) :: (cond r.italic 1 0) :: strBytes r.text

def cellBytes (c : SkillCell) : List Nat := strBytes c.category ++ strBytes c.skills

def rowBytes (row : SkillCell × Option SkillCell) : List Nat :=
  cellBytes row.1 ++ (match row.2 with | none => [0] | some c => 1 :: cellBytes c)

def blockBytes (b : Block) : List Nat :=
  match b with
  | Block.titlePara t => 1 :: strBytes t
  | Block.contactPara t => 2 :: strBytes t
  | Block.skillsBanner => [3]
  | Block.sectionBanner t => 4 :: strBytes t
  | Block.skillsTable rows => 5 :: rows.length :: (rows.map rowBytes).flatten
  | Block.entryTable left right =>
      6 :: left.length :: (left.map runBytes).flatten ++ runBytes right
  | Block.bulletPara t => 7 :: strBytes t

def docxBytes (blocks : List Block) : List Nat :=
  blocks.length :: (blocks.map blockBytes).flatten

/-- One formatting run observed together with the world state: the DOCX
bytes produced (`none` = exception) and the log lines, whose timestamps do
depend on the environment. -/
def formatPipeline (env : Env) (p : UserProfile) (tc : TailoredContent) :
    Option (List Nat) × List Str :=
  ((to_docx (agentRun p tc)).map docxBytes,
   [str "t=" ++ natStr env.wallClock ++ str " call " ++ natStr env.priorCalls ++
      str " generating styled DOCX"])

/- ### Lemmas about the skills grid -/

/-- A line containing a colon yields a cell (Python `split(':', 1)` gives two
pieces, so the two-variable unpacking succeeds). -/
theorem mkSkillCell_isSome_of_colon {l : Str} (h : pyContains (str ":") l = true) :
    (mkSkillCell l).isSome := by
  unfold pyContains at h
  cases hs : pySplitOnce (str ":") l with
  | none => rw [hs] at h; simp at h
  | some ab => obtain ⟨a, b⟩ := ab; simp [mkSkillCell, hs]

theorem buildSkillRows_spec :
    ∀ (L R : List Str),
      (∀ l ∈ L, (mkSkillCell l).isSome) → (∀ r ∈ R, (mkSkillCell r).isSome) →
      R.length ≤ L.length →
      ∃ rows, buildSkillRows L R = some rows ∧
        rows.length = L.length ∧
        rows.map Prod.fst = L.filterMap mkSkillCell ∧
        rows.map Prod.snd = (R.filterMap mkSkillCell).map some ++
          List.replicate (L.length - R.length) none := by
  intro L
  induction L with
  | nil =>
    intro R _ _ hlen
    have hR : R = [] := List.length_eq_zero.mp (Nat.le_zero.mp hlen)
    subst hR
    exact ⟨[], rfl, rfl, rfl, by simp⟩
  | cons l ls ih =>
    intro R hL hR hlen
    obtain ⟨cl, hcl⟩ := Option.isSome_iff_exists.mp (hL l (by simp))
    cases R with
    | nil =>
      obtain ⟨rows, h1, h2, h3, h4⟩ :=
        ih [] (fun x hx => hL x (by simp [hx])) (by simp) (by simp)
      refine ⟨(cl, none) :: rows, ?_, ?_, ?_, ?_⟩
      · simp [buildSkillRows, hcl, h1]
      · simp [h2]
      · simp [List.filterMap_cons, hcl, h3]
      · simp only [List.map_cons, h4]
        simp [List.replicate_succ]
    | cons r rs =>
      obtain ⟨cr, hcr⟩ := Option.isSome_iff_exists.mp (hR r (by simp))
      obtain ⟨rows, h1, h2, h3, h4⟩ :=
        ih rs (fun x hx => hL x (by simp [hx])) (fun x hx => hR x (by simp [hx]))
          (by simp only [List.length_cons] at hlen; omega)
      refine ⟨(cl, some cr) :: rows, ?_, ?_, ?_, ?_⟩
      · simp [buildSkillRows, hcl, hcr, h1]
      · simp [h2]
      · simp [List.filterMap_cons, hcl, h3]
      · simp [List.filterMap_cons, hcr, h4]

theorem addSkillsTable_isSome {skillLines : List Str}
    (hcells : ∀ l ∈ skillLines, (mkSkillCell l).isSome) :
    (addSkillsTable skillLines).isSome := by
  by_cases hne : skillLines.isEmpty = true
  · simp [addSkillsTable, hne]
  · obtain ⟨rows, h1, _, _, _⟩ :=
      buildSkillRows_spec
        (skillLines.take ((skillLines.length + 1) / 2))
        (skillLines.drop ((skillLines.length + 1) / 2))
        (fun x hx => hcells x (List.take_subset _ _ hx))
        (fun x hx => hcells x (List.drop_subset _ _ hx))
        (by
          have h0 : skillLines.length ≠ 0 := by
            intro h
            exact hne (by simpa [List.isEmpty_iff, List.length_eq_zero] using h)
          simp only [List.length_take, List.length_drop]
          omega)
    simp [addSkillsTable, hne, h1]

/- ### Claim theorems -/

/-- C1: skills-grid split law.  For a non-empty list of skill category lines
(each containing a colon, the defining shape of a category line), the
generated grid exists (no exception), has `ceil(n/2) = (n+1)/2` rows, its
left column is the cells of the first `ceil(n/2)` lines in order, its right
column is the cells of the remaining `floor(n/2)` lines in order
(column-major distribution), taking the first-half lines followed by the
remaining lines reproduces the original list, and for odd `n` the last right
cell is blank (`none`). -/
theorem c1_skills_grid_split (skillLines : List Str) (hne : skillLines ≠ [])
    (hcolon : ∀ l ∈ skillLines, pyContains (str ":") l = true) :
    ∃ rows, addSkillsTable skillLines = some [Block.skillsTable rows] ∧
      rows.length = (skillLines.length + 1) / 2 ∧
      (skillLines.take ((skillLines.length + 1) / 2)).length =
        (skillLines.length + 1) / 2 ∧
      (skillLines.drop ((skillLines.length + 1) / 2)).length =
        skillLines.length / 2 ∧
      skillLines.take ((skillLines.length + 1) / 2) ++
        skillLines.drop ((skillLines.length + 1) / 2) = skillLines ∧
      rows.map Prod.fst =
        (skillLines.take ((skillLines.length + 1) / 2)).filterMap mkSkillCell ∧
      rows.map Prod.snd =
        ((skillLines.drop ((skillLines.length + 1) / 2)).filterMap mkSkillCell).map some ++
          (if skillLines.length % 2 = 1 then [none] else []) := by
  have hlen0 : skillLines.length ≠ 0 := by
    intro h
    exact hne (List.length_eq_zero.mp h)
  have hcells : ∀ l ∈ skillLines, (mkSkillCell l).isSome :=
    fun l hl => mkSkillCell_isSome_of_colon (hcolon l hl)
  obtain ⟨rows, h1, h2, h3, h4⟩ :=
    buildSkillRows_spec
      (skillLines.take ((skillLines.length + 1) / 2))
      (skillLines.drop ((skillLines.length + 1) / 2))
      (fun x hx => hcells x (List.take_subset _ _ hx))
      (fun x hx => hcells x (List.drop_subset _ _ hx))
      (by simp only [List.length_take, List.length_drop]; omega)
  have htake : (skillLines.take ((skillLines.length + 1) / 2)).length =
      (skillLines.length + 1) / 2 := by
    simp only [List.length_take]
    omega
  have hdrop : (skillLines.drop ((skillLines.length + 1) / 2)).length =
      skillLines.length / 2 := by
    simp only [List.length_drop]
    omega
  refine ⟨rows, ?_, ?_, htake, hdrop, List.take_append_drop _ _, h3, ?_⟩
  · have hne' : skillLines.isEmpty = false := by
      cases skillLines with
      | nil => exact absurd rfl hne
      | cons a b => rfl
    simp [addSkillsTable, hne', h1]
  · rw [h2, htake]
  · rw [h4, htake, hdrop]
    by_cases hodd : skillLines.length % 2 = 1
    · have : (skillLines.length + 1) / 2 - skillLines.length / 2 = 1 := by omega
      simp [this, hodd]
    · have : (skillLines.length + 1) / 2 - skillLines.length / 2 = 0 := by omega
      simp [this, hodd]

/-- Witness for C1 at the three category lines of the spec's example. -/
theorem c1_skills_grid_split_witness :
    ∃ rows,
      addSkillsTable [str "**Languages:** Python, Go", str "**Cloud:** AWS",
        str "**Tools:** Git"] = some [Block.skillsTable rows] ∧
      rows.length = 2 ∧
      rows.map Prod.snd =
        (([str "**Tools:** Git"].filterMap mkSkillCell).map some) ++ [none] := by
  obtain ⟨rows, h1, h2, _, _, _, _, h7⟩ :=
    c1_skills_grid_split
      [str "**Languages:** Python, Go", str "**Cloud:** AWS", str "**Tools:** Git"]
      (by decide) (by decide)
  exact ⟨rows, h1, by simpa using h2, by simpa using h7⟩

/-- C10: colon precondition for skills rows.  Any list of skills lines each
containing at least one `':'` renders without exception, while a collected
skills line with no colon (here `'**Languages** Python'` under a
`'## SKILLS'` header) makes the whole document generation raise (`none`):
generation is not total on colon-free skills lines. -/
theorem c10_colon_precondition :
    (∀ skillLines : List Str,
        (∀ l ∈ skillLines, pyContains (str ":") l = true) →
        (addSkillsTable skillLines).isSome = true) ∧
    to_docx (str "## SKILLS\n**Languages** Python") = none := by
  constructor
  · intro skillLines hcolon
    exact addSkillsTable_isSome
      (fun l hl => mkSkillCell_isSome_of_colon (hcolon l hl))
  · decide

/-- Witness for C10's universally quantified half, at one concrete colon-containing line. -/
theorem c10_colon_precondition_witness :
    (addSkillsTable [str "**Languages:** Python"]).isSome = true :=
  c10_colon_precondition.1 [str "**Languages:** Python"] (by decide)

/-- C2 counterexample: on `'## SKILLS'` followed by the three category lines
of the claim, the generated grid's rows are
(Languages | Tools) and (Cloud | blank) — the code fills column-major —
and not the claimed (Languages | Cloud), (Tools | blank). -/
theorem c2_counterexample :
    to_docx (str "## SKILLS\n**Languages:** Python, Go\n**Cloud:** AWS\n**Tools:** Git") =
      some [Block.skillsBanner,
        Block.skillsTable
          [(⟨str "Languages", str "Python, Go"⟩, some ⟨str "Tools", str "Git"⟩),
           (⟨str "Cloud", str "AWS"⟩, none)]] ∧
    ([(⟨str "Languages", str "Python, Go"⟩, some ⟨str "Tools", str "Git"⟩),
      (⟨str "Cloud", str "AWS"⟩, none)] :
        List (SkillCell × Option SkillCell)) ≠
      [(⟨str "Languages", str "Python, Go"⟩, some ⟨str "Cloud", str "AWS"⟩),
       (⟨str "Tools", str "Git"⟩, none)] := by
  constructor
  · decide
  · decide

/-- C2 as amended: same input, but row 0 is (Languages | Tools) and row 1 is
(Cloud | blank), because the first `ceil(n/2)` categories run down the left
column and the rest down the right (column-major). -/
theorem c2_grid_column_major :
    to_docx (str "## SKILLS\n**Languages:** Python, Go\n**Cloud:** AWS\n**Tools:** Git") =
      some [Block.skillsBanner,
        Block.skillsTable
          [(⟨str "Languages", str "Python, Go"⟩, some ⟨str "Tools", str "Git"⟩),
           (⟨str "Cloud", str "AWS"⟩, none)]] := by
  decide

/-- C4: evaluating the entry-header renderer at the agent's own three-part
left side shows the third segment (`location`) is dropped: the left cell
renders runs `'Senior Engineer'` (bold) and `' | Acme'` only — nothing
carries `'NYC'` — because the code splits on every pipe and keeps only
`parts[0]` and `parts[1]` instead of splitting once on the first pipe. -/
theorem c4_left_remainder_dropped :
    entryHeaderBlock (str "**Senior Engineer** | Acme | NYC ||| 2020-2023") =
      some (Block.entryTable
        [⟨str "Senior Engineer", true, false⟩, ⟨str " | Acme", false, false⟩]
        ⟨str "2020-2023", false, false⟩) ∧
    agentRun { name := some (str "Jane Doe") }
        { tailored_experience :=
            some [{ title := some (str "Senior Engineer"),
                    company := some (str "Acme"),
                    location := some (str "NYC"),
                    dates := some (str "2020-2023") }] } =
      str "# Jane Doe\n\n\n## Experience\n**Senior Engineer** | Acme | NYC ||| 2020-2023" := by
  constructor
  · decide
  · decide

/-- C9: determinism of the formatting pipeline as a two-run property: two
runs in arbitrary world states (different wall-clock time, random seed, and
prior-call count) produce identical DOCX byte serializations — the artifact
component of `formatPipeline` reads none of the environment. -/
theorem c9_two_run_determinism (e₁ e₂ : Env) (p : UserProfile) (tc : TailoredContent) :
    (formatPipeline e₁ p tc).1 = (formatPipeline e₂ p tc).1 := rfl

/- ### Filesystem lemmas for the export stage -/

theorem fsGet_fsSet_same (fs : FileSys) (p : Str) (a : Artifact) :
    fsGet (fsSet fs p a) p = some a := by
  simp [fsGet, fsSet]

theorem fsGet_fsSet_ne (fs : FileSys) {p q : Str} (a : Artifact) (h : q ≠ p) :
    fsGet (fsSet fs p a) q = fsGet fs q := by
  simp only [fsGet, fsSet]
  rw [if_neg (fun hh : p = q => h hh.symm)]

theorem fsGet_fsErase_ne (fs : FileSys) {p q : Str} (h : q ≠ p) :
    fsGet (fsErase fs p) q = fsGet fs q := by
  induction fs with
  | nil => rfl
  | cons e rest ih =>
    obtain ⟨r, a⟩ := e
    simp only [fsErase]
    by_cases hr : r = p
    · rw [if_pos hr, ih]
      simp only [fsGet]
      rw [if_neg (fun hh : r = q => h (hh ▸ hr))]
    · rw [if_neg hr]
      simp only [fsGet]
      by_cases hq : r = q
      · rw [if_pos hq, if_pos hq]
      · rw [if_neg hq, if_neg hq, ih]

/-- C7 counterexample: at a concrete failing conversion (the external
converter unavailable), `to_pdf` returns normally — no failure reaches the
caller (`raised = false`), refuting the claimed propagation — even though
the failure is logged and the previously persisted DOCX artifact survives. -/
theorem c7_counterexample :
    (to_pdf (str "# Jane") (str "/tmp/t/temp_resume.docx") (str "/out/resume.pdf")
        ⟨false, fun bs => bs⟩
        [(str "/out/resume.docx", Artifact.docxFile [Block.titlePara (str "Jane")])]).raised
      = false ∧
    convertErrorLog ∈
      (to_pdf (str "# Jane") (str "/tmp/t/temp_resume.docx") (str "/out/resume.pdf")
        ⟨false, fun bs => bs⟩
        [(str "/out/resume.docx", Artifact.docxFile [Block.titlePara (str "Jane")])]).log ∧
    fsGet
      (to_pdf (str "# Jane") (str "/tmp/t/temp_resume.docx") (str "/out/resume.pdf")
        ⟨false, fun bs => bs⟩
        [(str "/out/resume.docx", Artifact.docxFile [Block.titlePara (str "Jane")])]).fs
      (str "/out/resume.docx") = some (Artifact.docxFile [Block.titlePara (str "Jane")]) := by
  refine ⟨?_, ?_, ?_⟩ <;> decide

/-- C7 as amended: when the fixed-layout conversion step cannot run,
`to_pdf` logs the failure but swallows the exception, returning normally to
its caller (no propagated failure), and every file outside the fresh
temporary path — in particular a previously persisted DOCX artifact — is
untouched. -/
theorem c7_log_and_swallow (markdown tmpPath outputPath : Str)
    (g : List Block → List Block) (fs0 : FileSys) (p : Str) (hp : p ≠ tmpPath) :
    (to_pdf markdown tmpPath outputPath ⟨false, g⟩ fs0).raised = false ∧
    convertErrorLog ∈ (to_pdf markdown tmpPath outputPath ⟨false, g⟩ fs0).log ∧
    fsGet (to_pdf markdown tmpPath outputPath ⟨false, g⟩ fs0).fs p = fsGet fs0 p := by
  cases h : to_docx markdown with
  | none =>
    refine ⟨?_, ?_, ?_⟩ <;> simp [to_pdf, h, fsGet_fsErase_ne _ hp]
  | some blocks =>
    refine ⟨?_, ?_, ?_⟩ <;>
      simp [to_pdf, h, fsGet_fsErase_ne _ hp, fsGet_fsSet_ne _ _ hp]

/-- Witness for C7's amended statement at a concrete failing conversion. -/
theorem c7_log_and_swallow_witness :
    (to_pdf (str "# Jane") (str "/tmp/t/temp_resume.docx") (str "/out/resume.pdf")
        ⟨false, fun bs => bs⟩
        [(str "/out/resume.docx", Artifact.docxFile [])]).raised = false ∧
    convertErrorLog ∈
      (to_pdf (str "# Jane") (str "/tmp/t/temp_resume.docx") (str "/out/resume.pdf")
        ⟨false, fun bs => bs⟩
        [(str "/out/resume.docx", Artifact.docxFile [])]).log ∧
    fsGet
      (to_pdf (str "# Jane") (str "/tmp/t/temp_resume.docx") (str "/out/resume.pdf")
        ⟨false, fun bs => bs⟩
        [(str "/out/resume.docx", Artifact.docxFile [])]).fs
      (str "/out/resume.docx") =
      fsGet [(str "/out/resume.docx", Artifact.docxFile [])] (str "/out/resume.docx") :=
  c7_log_and_swallow (str "# Jane") (str "/tmp/t/temp_resume.docx")
    (str "/out/resume.pdf") (fun bs => bs)
    [(str "/out/resume.docx", Artifact.docxFile [])]
    (str "/out/resume.docx") (by decide)

/-- C8: two-stage export refinement.  With the conversion capability
available, the PDF `to_pdf` leaves at the output path is exactly
`toPdfSpec` — the external conversion applied to the editable document that
`to_docx` builds from the same markup — and the whole result of `to_pdf`
depends on the markup only through `to_docx`'s output. -/
theorem c8_pdf_refines_convert_of_docx (markdown tmpPath outputPath : Str)
    (g : List Block → List Block) (fs0 : FileSys)
    (hne : outputPath ≠ tmpPath) (hout : fsGet fs0 outputPath = none) :
    fsGet (to_pdf markdown tmpPath outputPath ⟨true, g⟩ fs0).fs outputPath =
      toPdfSpec g markdown ∧
    ∀ markdown', to_docx markdown' = to_docx markdown →
      to_pdf markdown' tmpPath outputPath ⟨true, g⟩ fs0 =
        to_pdf markdown tmpPath outputPath ⟨true, g⟩ fs0 := by
  constructor
  · cases h : to_docx markdown with
    | none =>
      simp [to_pdf, h, toPdfSpec, fsGet_fsErase_ne _ hne,
        fsGet_fsSet_ne _ _ hne, hout]
    | some blocks =>
      simp [to_pdf, h, toPdfSpec, fsGet_fsSet_same,
        fsGet_fsErase_ne _ hne, fsGet_fsSet_same]
  · intro markdown' h'
    unfold to_pdf
    rw [h']

/-- Witness for C8 at a concrete markup, converter, and filesystem. -/
theorem c8_pdf_refines_convert_of_docx_witness :
    fsGet (to_pdf (str "# Jane") (str "/tmp/t/temp_resume.docx")
        (str "/out/resume.pdf") ⟨true, fun bs => bs⟩ []).fs (str "/out/resume.pdf") =
      toPdfSpec (fun bs => bs) (str "# Jane") ∧
    ∀ markdown', to_docx markdown' = to_docx (str "# Jane") →
      to_pdf markdown' (str "/tmp/t/temp_resume.docx") (str "/out/resume.pdf")
          ⟨true, fun bs => bs⟩ [] =
        to_pdf (str "# Jane") (str "/tmp/t/temp_resume.docx") (str "/out/resume.pdf")
          ⟨true, fun bs => bs⟩ [] :=
  c8_pdf_refines_convert_of_docx (str "# Jane") (str "/tmp/t/temp_resume.docx")
    (str "/out/resume.pdf") (fun bs => bs) [] (by decide) rfl

/- ### Lemmas about the dispatch loop -/

theorem isSome_map_eq {α β : Type} (f : α → β) (o : Option α) :
    (o.map f).isSome = o.isSome := by cases o <;> rfl

theorem processLinesF_fuel :
    ∀ (f₁ f₂ : Nat) (lines : List Str), lines.length < f₁ → lines.length < f₂ →
      processLinesF f₁ lines = processLinesF f₂ lines := by
  intro f₁
  induction f₁ with
  | zero => intro f₂ lines h1 _; omega
  | succ f ih =>
    intro f₂ lines h1 h2
    cases lines with
    | nil =>
      cases f₂ with
      | zero => simp at h2
      | succ f₂' => rfl
    | cons l rest =>
      cases f₂ with
      | zero => simp at h2
      | succ f₂' =>
        have hr₁ : rest.length < f := by
          simp only [List.length_cons] at h1; omega
        have hr₂ : rest.length < f₂' := by
          simp only [List.length_cons] at h2; omega
        have hd₁ : (rest.dropWhile isSkillLine).length < f :=
          lt_of_le_of_lt (@List.dropWhile_sublist _ rest isSkillLine).length_le hr₁
        have hd₂ : (rest.dropWhile isSkillLine).length < f₂' :=
          lt_of_le_of_lt (@List.dropWhile_sublist _ rest isSkillLine).length_le hr₂
        simp only [processLinesF]
        rw [ih f₂' rest hr₁ hr₂, ih f₂' (rest.dropWhile isSkillLine) hd₁ hd₂]

/-- The dispatch loop viewed one line at a time. -/
theorem processLines_cons (l : Str) (rest : List Str) :
    processLines (l :: rest) = processLinesF (rest.length + 1 + 1) (l :: rest) := rfl

/-- A single-line Boolean test for "this line matches no classification
rule" (the dispatcher's conditions, in order, all failing), applied to the
stripped line. -/
def matchesNoRule (s : Str) : Bool :=
  !s.isEmpty && !pyStartsWith (str "# ") s &&
  !(pyContains (str " | ") s && pyContains (str "@") s) &&
  !pyStartsWith (str "## ") s &&
  !(pyStartsWith (str "**") s && pyContains (str "|||") s) &&
  !pyStartsWith (str "- ") s

/-- A line matching no rule contributes nothing: the dispatcher silently
skips it. -/
theorem processLines_skip (l : Str) (rest : List Str)
    (h : matchesNoRule (pyStrip l) = true) :
    processLines (l :: rest) = processLines rest := by
  simp only [matchesNoRule, Bool.and_eq_true, Bool.not_eq_true',
    Bool.and_eq_false_iff] at h
  obtain ⟨⟨⟨⟨⟨h0, h1⟩, h2⟩, h3⟩, h4⟩, h5⟩ := h
  rw [processLines_cons]
  simp only [processLinesF, h0, h1, h3, h5, Bool.false_eq_true, if_false]
  have hif2 : (pyContains (str " | ") (pyStrip l) && pyContains (str "@") (pyStrip l)) = false := by
    rcases h2 with h2 | h2 <;> simp [h2]
  have hif4 : (pyStartsWith (str "**") (pyStrip l) && pyContains (str "|||") (pyStrip l)) = false := by
    rcases h4 with h4 | h4 <;> simp [h4]
  simp only [hif2, hif4, Bool.false_eq_true, if_false]
  exact processLinesF_fuel (rest.length + 1) (rest.length + 1) rest
    (by omega) (by omega) ▸ rfl

/-- Safety condition making the dispatch loop exception-free: every line
that (stripped) begins with `'**'` — the only lines the loop ever splits —
contains a colon, and, if it contains the sentinel at all, splits into
exactly two pieces on it. -/
def safeLine (l : Str) : Prop :=
  pyStartsWith (str "**") (pyStrip l) = true →
    pyContains (str ":") (pyStrip l) = true ∧
      (pyContains (str "|||") (pyStrip l) = true →
        (pySplit (str "|||") (pyStrip l)).length = 2)

theorem processLinesF_total :
    ∀ (fuel : Nat) (lines : List Str), lines.length < fuel →
      (∀ l ∈ lines, safeLine l) →
      (processLinesF fuel lines).isSome = true := by
  intro fuel
  induction fuel with
  | zero => intro lines h _; omega
  | succ f ih =>
    intro lines hlen hsafe
    cases lines with
    | nil => simp [processLinesF]
    | cons l rest =>
      have hr : rest.length < f := by
        simp only [List.length_cons] at hlen; omega
      have hrest : ∀ x ∈ rest, safeLine x :=
        fun x hx => hsafe x (List.mem_cons_of_mem _ hx)
      simp only [processLinesF]
      by_cases hb : (pyStrip l).isEmpty = true
      · simp only [hb, if_true]
        exact ih rest hr hrest
      · simp only [hb, Bool.false_eq_true, if_false]
        by_cases h1 : pyStartsWith (str "# ") (pyStrip l) = true
        · simp only [h1, if_true, isSome_map_eq]
          exact ih rest hr hrest
        · simp only [h1, Bool.false_eq_true, if_false]
          by_cases h2 : (pyContains (str " | ") (pyStrip l) &&
              pyContains (str "@") (pyStrip l)) = true
          · simp only [h2, if_true, isSome_map_eq]
            exact ih rest hr hrest
          · simp only [h2, Bool.false_eq_true, if_false]
            by_cases h3 : pyStartsWith (str "## ") (pyStrip l) = true
            · simp only [h3, if_true]
              by_cases h3s : pyContains (str "SKILLS") (pyUpper (pyStrip l)) = true
              · simp only [h3s, if_true]
                have hcells : ∀ x ∈ (rest.takeWhile isSkillLine).map pyStrip,
                    (mkSkillCell x).isSome := by
                  intro x hx
                  obtain ⟨y, hy, rfl⟩ := List.mem_map.mp hx
                  have hsk : isSkillLine y = true := List.mem_takeWhile_imp hy
                  have hyr : y ∈ rest := List.takeWhile_subset _ hy
                  have := (hrest y hyr) hsk
                  exact mkSkillCell_isSome_of_colon this.1
                obtain ⟨tbl, htbl⟩ :=
                  Option.isSome_iff_exists.mp (addSkillsTable_isSome hcells)
                simp only [htbl, isSome_map_eq]
                refine ih (rest.dropWhile isSkillLine)
                  (lt_of_le_of_lt
                    (@List.dropWhile_sublist _ rest isSkillLine).length_le hr)
                  (fun x hx => hrest x (List.dropWhile_subset _ hx))
              · simp only [h3s, Bool.false_eq_true, if_false, isSome_map_eq]
                exact ih rest hr hrest
            · simp only [h3, Bool.false_eq_true, if_false]
              by_cases h4 : (pyStartsWith (str "**") (pyStrip l) &&
                  pyContains (str "|||") (pyStrip l)) = true
              · simp only [h4, if_true]
                obtain ⟨h4a, h4b⟩ := Bool.and_eq_true_iff.mp h4
                have hlen2 := ((hsafe l (by simp)) h4a).2 h4b
                have hiss : (entryHeaderBlock (pyStrip l)).isSome = true := by
                  cases hsp : pySplit (str "|||") (pyStrip l) with
                  | nil => rw [hsp] at hlen2; simp at hlen2
                  | cons a t =>
                    cases t with
                    | nil => rw [hsp] at hlen2; simp at hlen2
                    | cons b t2 =>
                      cases t2 with
                      | nil =>
                        unfold entryHeaderBlock
                        rw [hsp]
                        simp
                      | cons c t3 => rw [hsp] at hlen2; simp at hlen2
                obtain ⟨b, hbk⟩ := Option.isSome_iff_exists.mp hiss
                simp only [hbk, isSome_map_eq]
                exact ih rest hr hrest
              · simp only [h4, Bool.false_eq_true, if_false]
                by_cases h5 : pyStartsWith (str "- ") (pyStrip l) = true
                · simp only [h5, if_true, isSome_map_eq]
                  exact ih rest hr hrest
                · simp only [h5, Bool.false_eq_true, if_false]
                  exact ih rest hr hrest

/-- C6 counterexample: at the concrete input `'hello world'` — a non-blank
line matching no classification rule — `to_docx` produces an empty document
(the line is silently dropped, no paragraph carries its text), and at
`'## SKILLS'` followed by the colon-free line `'**Languages** Python'`
generation raises (`none`): it is not exception-free on all input. -/
theorem c6_counterexample :
    to_docx (str "hello world") = some [] ∧
    matchesNoRule (pyStrip (str "hello world")) = true ∧
    to_docx (str "## SKILLS\n**Languages** Python") = none := by
  refine ⟨?_, ?_, ?_⟩ <;> decide

/-- C6 as amended: document generation is exception-free only on safe input
(every `'**'`-prefixed stripped line contains a colon, and splits in exactly
two on the sentinel when it contains one); and a non-blank line matching no
classification rule is silently skipped — it contributes no block at all —
rather than being emitted as a plain paragraph. -/
theorem c6_totality_and_skip :
    (∀ lines : List Str, (∀ l ∈ lines, safeLine l) →
      (processLines lines).isSome = true) ∧
    (∀ (l : Str) (rest : List Str), matchesNoRule (pyStrip l) = true →
      processLines (l :: rest) = processLines rest) := by
  constructor
  · intro lines hsafe
    exact processLinesF_total (lines.length + 1) lines (by omega) hsafe
  · exact processLines_skip

/-- Witness for C6's amended statement: a concrete safe document renders,
and the unmatched line `'hello world'` is skipped before a title line. -/
theorem c6_totality_and_skip_witness :
    (processLines [str "# Jane", str "**Skills:** Python ||| now"]).isSome = true ∧
    processLines [str "hello world", str "# Jane"] = processLines [str "# Jane"] :=
  ⟨c6_totality_and_skip.1 [str "# Jane", str "**Skills:** Python ||| now"]
      (by
        intro l hl
        simp only [List.mem_cons, List.mem_singleton] at hl
        rcases hl with rfl | rfl | h
        · intro hpre; exact absurd hpre (by decide)
        · intro _; exact ⟨by decide, fun _ => by decide⟩
        · cases h),
   c6_totality_and_skip.2 (str "hello world") [str "# Jane"] (by decide)⟩

/- ### Which stripped lines can look like a section header -/

/-- A line whose first character is non-space and not `'#'` cannot strip to
a `'## '`-prefixed line. -/
theorem startsHash2_false_of_head {x : Char} (s : Str) (hx : isPySpace x = false)
    (hne : x ≠ '#') :
    pyStartsWith (str "## ") (pyStrip (x :: s)) = false := by
  obtain ⟨w, hw⟩ := pyStrip_head_nonspace hx s
  rw [hw]
  exact pyStartsWith_cons_head_ne hne

/-- The title line `'# ' + name` never strips to a `'## '`-prefixed line,
whatever the name. -/
theorem startsHash2_false_of_title (nm : Str) :
    pyStartsWith (str "## ") (pyStrip (str "# " ++ nm)) = false := by
  have h0 : str "# " ++ nm = '#' :: ' ' :: nm := rfl
  rw [h0]
  have h1 : List.dropWhile isPySpace ('#' :: ' ' :: nm) = '#' :: ' ' :: nm := by
    rw [List.dropWhile_cons]
    simp [isPySpace]
  simp only [pyStrip, h1]
  have h2 : ('#' :: ' ' :: nm).reverse = nm.reverse ++ [' ', '#'] := by simp
  rw [h2, List.dropWhile_append]
  by_cases h3 : (List.dropWhile isPySpace nm.reverse).isEmpty = true
  · rw [if_pos h3]
    decide
  · rw [if_neg h3, List.reverse_append]
    have h4 : ([' ', '#'] : Str).reverse = ['#', ' '] := rfl
    rw [h4]
    simp [pyStartsWith]

/- ### Shapes of the lines the agent emits -/

theorem formatSkills_mem {skills : List (Str × List Str)} {x : Str}
    (hx : x ∈ formatSkills skills) :
    x = str "## Skills" ∨ ∃ t, x = '*' :: t := by
  simp only [formatSkills, List.mem_cons] at hx
  rcases hx with rfl | hx
  · exact Or.inl rfl
  · obtain ⟨cs, _, hcs⟩ := List.mem_filterMap.mp hx
    right
    by_cases he : cs.2.isEmpty
    · rw [if_pos he] at hcs; cases hcs
    · rw [if_neg he] at hcs
      exact ⟨_, (Option.some.injEq _ _ ▸ hcs).symm⟩

theorem formatItemLines_mem {is_project : Bool} {item : Item} {x : Str}
    (hx : x ∈ formatItemLines is_project item) :
    (∃ t, x = '*' :: t) ∨ (∃ t, x = '-' :: t) ∨ x = [] := by
  rcases List.mem_cons.mp hx with rfl | hx2
  · cases is_project with
    | true => exact Or.inl ⟨_, rfl⟩
    | false => exact Or.inl ⟨_, rfl⟩
  · rcases List.mem_append.mp hx2 with hx3 | hx4
    · obtain ⟨pt, _, hpt⟩ := List.mem_map.mp hx3
      exact Or.inr (Or.inl ⟨' ' :: cleanPoint pt, hpt.symm⟩)
    · rw [List.mem_singleton.mp hx4]
      exact Or.inr (Or.inr rfl)

theorem formatExpProj_mem {title : Str} {items : List Item} {is_project : Bool}
    {x : Str} (hx : x ∈ formatExperienceOrProjects title items is_project) :
    x = str "## " ++ title ∨ (∃ t, x = '*' :: t) ∨ (∃ t, x = '-' :: t) ∨ x = [] := by
  simp only [formatExperienceOrProjects, List.mem_cons] at hx
  rcases hx with rfl | hx
  · exact Or.inl rfl
  · obtain ⟨item, _, hmem⟩ := List.mem_flatMap.mp hx
    exact Or.inr (formatItemLines_mem hmem)

theorem formatEducation_mem {items : List Item} {x : Str}
    (hx : x ∈ formatEducation items) :
    x = str "## Education" ∨ (∃ t, x = '*' :: t) ∨ x = [] := by
  rcases List.mem_cons.mp hx with rfl | hx
  · exact Or.inl rfl
  · obtain ⟨item, _, hmem⟩ := List.mem_flatMap.mp hx
    rcases List.mem_cons.mp hmem with rfl | hmem2
    · exact Or.inr (Or.inl ⟨_, rfl⟩)
    · rcases List.mem_cons.mp hmem2 with rfl | hmem3
      · exact Or.inr (Or.inl ⟨_, rfl⟩)
      · rw [List.mem_singleton.mp hmem3]
        exact Or.inr (Or.inr rfl)

/-- Every line the agent emits is the title line, the contact line, a blank,
one of the four section banners (each only when its section is truthy), or a
line starting with `'*'` or `'-'`. -/
theorem resumeParts_cases {p : UserProfile} {tc : TailoredContent} {x : Str}
    (hx : x ∈ resumeParts p tc) :
    (∃ nm, x = str "# " ++ nm) ∨
    x = formatContact (p.contact.getD {}) ∨
    x = [] ∨
    (x = str "## Skills" ∧ truthy tc.tailored_skills = true) ∨
    (x = str "## Experience" ∧ truthy tc.tailored_experience = true) ∨
    (x = str "## Projects" ∧ truthy tc.tailored_projects = true) ∨
    (x = str "## Education" ∧ truthy tc.education = true) ∨
    (∃ t, x = '*' :: t) ∨ (∃ t, x = '-' :: t) := by
  simp only [resumeParts] at hx
  rcases List.mem_append.mp hx with hx4 | hEd
  rotate_left
  · by_cases hed : truthy tc.education = true
    · rw [if_pos hed] at hEd
      rcases formatEducation_mem hEd with rfl | ⟨t, rfl⟩ | rfl
      · exact Or.inr (Or.inr (Or.inr (Or.inr (Or.inr (Or.inr (Or.inl ⟨rfl, hed⟩))))))
      · exact Or.inr (Or.inr (Or.inr (Or.inr (Or.inr (Or.inr (Or.inr (Or.inl ⟨t, rfl⟩)))))))
      · exact Or.inr (Or.inr (Or.inl rfl))
    · rw [if_neg hed] at hEd
      cases hEd
  rcases List.mem_append.mp hx4 with hx3 | hPr
  rotate_left
  · by_cases hpr : truthy tc.tailored_projects = true
    · rw [if_pos hpr] at hPr
      rcases formatExpProj_mem hPr with rfl | ⟨t, rfl⟩ | ⟨t, rfl⟩ | rfl
      · exact Or.inr (Or.inr (Or.inr (Or.inr (Or.inr (Or.inl ⟨rfl, hpr⟩)))))
      · exact Or.inr (Or.inr (Or.inr (Or.inr (Or.inr (Or.inr (Or.inr (Or.inl ⟨t, rfl⟩)))))))
      · exact Or.inr (Or.inr (Or.inr (Or.inr (Or.inr (Or.inr (Or.inr (Or.inr ⟨t, rfl⟩)))))))
      · exact Or.inr (Or.inr (Or.inl rfl))
    · rw [if_neg hpr] at hPr
      cases hPr
  rcases List.mem_append.mp hx3 with hx2 | hEx
  rotate_left
  · by_cases hex : truthy tc.tailored_experience = true
    · rw [if_pos hex] at hEx
      rcases formatExpProj_mem hEx with rfl | ⟨t, rfl⟩ | ⟨t, rfl⟩ | rfl
      · exact Or.inr (Or.inr (Or.inr (Or.inr (Or.inl ⟨rfl, hex⟩))))
      · exact Or.inr (Or.inr (Or.inr (Or.inr (Or.inr (Or.inr (Or.inr (Or.inl ⟨t, rfl⟩)))))))
      · exact Or.inr (Or.inr (Or.inr (Or.inr (Or.inr (Or.inr (Or.inr (Or.inr ⟨t, rfl⟩)))))))
      · exact Or.inr (Or.inr (Or.inl rfl))
    · rw [if_neg hex] at hEx
      cases hEx
  rcases List.mem_append.mp hx2 with hHead | hSk
  rotate_left
  · by_cases hsk : truthy tc.tailored_skills = true
    · rw [if_pos hsk] at hSk
      rcases List.mem_append.mp hSk with hSk2 | hSk3
      · rcases formatSkills_mem hSk2 with rfl | ⟨t, rfl⟩
        · exact Or.inr (Or.inr (Or.inr (Or.inl ⟨rfl, hsk⟩)))
        · exact Or.inr (Or.inr (Or.inr (Or.inr (Or.inr (Or.inr (Or.inr (Or.inl ⟨t, rfl⟩)))))))
      · rw [List.mem_singleton.mp hSk3]
        exact Or.inr (Or.inr (Or.inl rfl))
    · rw [if_neg hsk] at hSk
      cases hSk
  · rcases List.mem_cons.mp hHead with rfl | hHead2
    · exact Or.inl ⟨_, rfl⟩
    rcases List.mem_cons.mp hHead2 with rfl | hHead3
    · exact Or.inr (Or.inl rfl)
    rw [List.mem_singleton.mp hHead3]
    exact Or.inr (Or.inr (Or.inl rfl))

/- ### Where document banners come from -/

theorem addSkillsTable_blocks {ls : List Str} {tbl : List Block}
    (h : addSkillsTable ls = some tbl) :
    ∀ b ∈ tbl, ∃ rows, b = Block.skillsTable rows := by
  unfold addSkillsTable at h
  by_cases he : ls.isEmpty = true
  · rw [if_pos he] at h
    cases h
    intro b hb
    cases hb
  · rw [if_neg he] at h
    cases hbr : buildSkillRows (ls.take ((ls.length + 1) / 2))
        (ls.drop ((ls.length + 1) / 2)) with
    | none => rw [hbr] at h; cases h
    | some rows =>
      rw [hbr] at h
      cases h
      intro b hb
      rw [List.mem_singleton.mp hb]
      exact ⟨rows, rfl⟩

theorem entryHeaderBlock_shape {line : Str} {b : Block}
    (h : entryHeaderBlock line = some b) :
    ∃ L R, b = Block.entryTable L R := by
  unfold entryHeaderBlock at h
  cases hsp : pySplit (str "|||") line with
  | nil => rw [hsp] at h; cases h
  | cons a t =>
    cases t with
    | nil => rw [hsp] at h; cases h
    | cons c t2 =>
      cases t2 with
      | nil =>
        rw [hsp] at h
        exact ⟨_, _, (Option.some.injEq _ _ ▸ h).symm⟩
      | cons d t3 => rw [hsp] at h; cases h

/-- A SKILLS banner in the generated document comes only from a stripped
line that is `'## '`-prefixed and contains `SKILLS` (upper-cased), and a
section banner with text `t` comes only from a stripped `'## '`-prefixed
line without `SKILLS` whose upper-cased, `'## '`-cleaned text is `t`. -/
theorem processLinesF_banner_source :
    ∀ (fuel : Nat) (lines : List Str) (bs : List Block), lines.length < fuel →
      processLinesF fuel lines = some bs →
      (Block.skillsBanner ∈ bs →
        ∃ l ∈ lines, pyStartsWith (str "## ") (pyStrip l) = true ∧
          pyContains (str "SKILLS") (pyUpper (pyStrip l)) = true) ∧
      (∀ t, Block.sectionBanner t ∈ bs →
        ∃ l ∈ lines, pyStartsWith (str "## ") (pyStrip l) = true ∧
          pyContains (str "SKILLS") (pyUpper (pyStrip l)) = false ∧
          t = pyUpper (pyReplace (str "## ") [] (pyStrip l))) := by
  intro fuel
  induction fuel with
  | zero => intro lines bs h _; omega
  | succ f ih =>
    intro lines bs hlen hproc
    cases lines with
    | nil =>
      simp only [processLinesF] at hproc
      cases hproc
      exact ⟨fun hm => absurd hm (List.not_mem_nil _),
             fun t hm => absurd hm (List.not_mem_nil _)⟩
    | cons l rest =>
      have hr : rest.length < f := by
        simp only [List.length_cons] at hlen; omega
      have hr' : (rest.dropWhile isSkillLine).length < f :=
        lt_of_le_of_lt (@List.dropWhile_sublist _ rest isSkillLine).length_le hr
      have lift : ∀ {P : Str → Prop}, (∃ y ∈ rest, P y) → ∃ y ∈ l :: rest, P y :=
        fun ⟨y, hy, hp⟩ => ⟨y, List.mem_cons_of_mem _ hy, hp⟩
      have liftd : ∀ {P : Str → Prop},
          (∃ y ∈ rest.dropWhile isSkillLine, P y) → ∃ y ∈ l :: rest, P y :=
        fun ⟨y, hy, hp⟩ =>
          ⟨y, List.mem_cons_of_mem _ (List.dropWhile_subset _ hy), hp⟩
      simp only [processLinesF] at hproc
      by_cases hb : (pyStrip l).isEmpty = true
      · rw [if_pos hb] at hproc
        obtain ⟨ha, hb2⟩ := ih rest bs hr hproc
        exact ⟨fun hm => lift (ha hm), fun t hm => lift (hb2 t hm)⟩
      rw [if_neg hb] at hproc
      by_cases h1 : pyStartsWith (str "# ") (pyStrip l) = true
      · rw [if_pos h1] at hproc
        obtain ⟨bs', hbs', rfl⟩ := Option.map_eq_some'.mp hproc
        obtain ⟨ha, hb2⟩ := ih rest bs' hr hbs'
        constructor
        · intro hm
          rcases List.mem_cons.mp hm with hhead | htail
          · cases hhead
          · exact lift (ha htail)
        · intro t hm
          rcases List.mem_cons.mp hm with hhead | htail
          · cases hhead
          · exact lift (hb2 t htail)
      rw [if_neg h1] at hproc
      by_cases h2 : (pyContains (str " | ") (pyStrip l) &&
          pyContains (str "@") (pyStrip l)) = true
      · rw [if_pos h2] at hproc
        obtain ⟨bs', hbs', rfl⟩ := Option.map_eq_some'.mp hproc
        obtain ⟨ha, hb2⟩ := ih rest bs' hr hbs'
        constructor
        · intro hm
          rcases List.mem_cons.mp hm with hhead | htail
          · cases hhead
          · exact lift (ha htail)
        · intro t hm
          rcases List.mem_cons.mp hm with hhead | htail
          · cases hhead
          · exact lift (hb2 t htail)
      rw [if_neg h2] at hproc
      by_cases h3 : pyStartsWith (str "## ") (pyStrip l) = true
      · rw [if_pos h3] at hproc
        by_cases h3s : pyContains (str "SKILLS") (pyUpper (pyStrip l)) = true
        · rw [if_pos h3s] at hproc
          cases hT : addSkillsTable ((rest.takeWhile isSkillLine).map pyStrip) with
          | none => rw [hT] at hproc; cases hproc
          | some tbl =>
            rw [hT] at hproc
            obtain ⟨bs', hbs', rfl⟩ := Option.map_eq_some'.mp hproc
            obtain ⟨ha, hb2⟩ := ih (rest.dropWhile isSkillLine) bs' hr' hbs'
            constructor
            · intro _
              exact ⟨l, List.mem_cons_self _ _, h3, h3s⟩
            · intro t hm
              rcases List.mem_cons.mp hm with hhead | htail
              · cases hhead
              · rcases List.mem_append.mp htail with htbl | hbs2
                · obtain ⟨rows, hrows⟩ := addSkillsTable_blocks hT _ htbl
                  cases hrows
                · exact liftd (hb2 t hbs2)
        · rw [if_neg h3s] at hproc
          obtain ⟨bs', hbs', rfl⟩ := Option.map_eq_some'.mp hproc
          obtain ⟨ha, hb2⟩ := ih rest bs' hr hbs'
          constructor
          · intro hm
            rcases List.mem_cons.mp hm with hhead | htail
            · cases hhead
            · exact lift (ha htail)
          · intro t hm
            rcases List.mem_cons.mp hm with hhead | htail
            · have ht : t = pyUpper (pyReplace (str "## ") [] (pyStrip l)) := by
                cases hhead
                rfl
              refine ⟨l, List.mem_cons_self _ _, h3, ?_, ht⟩
              cases hcc : pyContains (str "SKILLS") (pyUpper (pyStrip l)) with
              | false => rfl
              | true => exact absurd hcc h3s
            · exact lift (hb2 t htail)
      rw [if_neg h3] at hproc
      by_cases h4 : (pyStartsWith (str "**") (pyStrip l) &&
          pyContains (str "|||") (pyStrip l)) = true
      · rw [if_pos h4] at hproc
        cases hE : entryHeaderBlock (pyStrip l) with
        | none => rw [hE] at hproc; cases hproc
        | some b0 =>
          rw [hE] at hproc
          obtain ⟨bs', hbs', rfl⟩ := Option.map_eq_some'.mp hproc
          obtain ⟨ha, hb2⟩ := ih rest bs' hr hbs'
          obtain ⟨L, R, rfl⟩ := entryHeaderBlock_shape hE
          constructor
          · intro hm
            rcases List.mem_cons.mp hm with hhead | htail
            · cases hhead
            · exact lift (ha htail)
          · intro t hm
            rcases List.mem_cons.mp hm with hhead | htail
            · cases hhead
            · exact lift (hb2 t htail)
      rw [if_neg h4] at hproc
      by_cases h5 : pyStartsWith (str "- ") (pyStrip l) = true
      · rw [if_pos h5] at hproc
        obtain ⟨bs', hbs', rfl⟩ := Option.map_eq_some'.mp hproc
        obtain ⟨ha, hb2⟩ := ih rest bs' hr hbs'
        constructor
        · intro hm
          rcases List.mem_cons.mp hm with hhead | htail
          · cases hhead
          · exact lift (ha htail)
        · intro t hm
          rcases List.mem_cons.mp hm with hhead | htail
          · cases hhead
          · exact lift (hb2 t htail)
      · rw [if_neg h5] at hproc
        obtain ⟨ha, hb2⟩ := ih rest bs hr hproc
        exact ⟨fun hm => lift (ha hm), fun t hm => lift (hb2 t hm)⟩

/- ### C5: the omission law -/

theorem banner_ne_title (b nm : Str) : ('#' :: '#' :: b) ≠ ('#' :: ' ' :: nm) := by
  intro h
  injection h with _ h2
  injection h2 with h3 _
  exact absurd h3 (by decide)

theorem banner_ne_star {b t : Str} : ('#' :: b) ≠ ('*' :: t) := by
  intro h
  injection h with h1 _
  exact absurd h1 (by decide)

theorem banner_ne_dash {b t : Str} : ('#' :: b) ≠ ('-' :: t) := by
  intro h
  injection h with h1 _
  exact absurd h1 (by decide)

/-- A `'## '` banner string is none of the lines the agent emits, except the
four section banners (each guarded by its truthiness flag). -/
theorem banner_not_mem_of {p : UserProfile} {tc : TailoredContent} {T : Str}
    (hc : pyStartsWith (str "## ") (pyStrip (formatContact (p.contact.getD {}))) = false)
    (hhash : ∃ r, T = '#' :: '#' :: ' ' :: r)
    (hstrip : pyStartsWith (str "## ") (pyStrip T) = true)
    (hsk : T = str "## Skills" → truthy tc.tailored_skills = false)
    (hex : T = str "## Experience" → truthy tc.tailored_experience = false)
    (hpr : T = str "## Projects" → truthy tc.tailored_projects = false)
    (hed : T = str "## Education" → truthy tc.education = false) :
    T ∉ resumeParts p tc := by
  intro hmem
  rcases resumeParts_cases hmem with ⟨nm, h⟩ | h | h | ⟨h, htr⟩ | ⟨h, htr⟩ | ⟨h, htr⟩ |
    ⟨h, htr⟩ | ⟨t, h⟩ | ⟨t, h⟩
  · obtain ⟨r, rfl⟩ := hhash
    exact banner_ne_title (' ' :: r) nm h
  · rw [h] at hstrip
    rw [hstrip] at hc
    exact Bool.noConfusion hc
  · obtain ⟨r, rfl⟩ := hhash
    exact List.cons_ne_nil _ _ h
  · rw [hsk h] at htr
    exact Bool.noConfusion htr
  · rw [hex h] at htr
    exact Bool.noConfusion htr
  · rw [hpr h] at htr
    exact Bool.noConfusion htr
  · rw [hed h] at htr
    exact Bool.noConfusion htr
  · obtain ⟨r, rfl⟩ := hhash
    exact banner_ne_star h
  · obtain ⟨r, rfl⟩ := hhash
    exact banner_ne_dash h

/-- Any agent-emitted line that strips to a `'## '`-prefixed line is one of
the four section banners, with its section truthy. -/
theorem stripped_hash2_cases {p : UserProfile} {tc : TailoredContent} {l : Str}
    (hc : pyStartsWith (str "## ") (pyStrip (formatContact (p.contact.getD {}))) = false)
    (hl : l ∈ resumeParts p tc)
    (hpre : pyStartsWith (str "## ") (pyStrip l) = true) :
    (l = str "## Skills" ∧ truthy tc.tailored_skills = true) ∨
    (l = str "## Experience" ∧ truthy tc.tailored_experience = true) ∨
    (l = str "## Projects" ∧ truthy tc.tailored_projects = true) ∨
    (l = str "## Education" ∧ truthy tc.education = true) := by
  rcases resumeParts_cases hl with ⟨nm, rfl⟩ | rfl | rfl | h | h | h | h | ⟨t, rfl⟩ | ⟨t, rfl⟩
  · rw [startsHash2_false_of_title nm] at hpre
    exact Bool.noConfusion hpre
  · rw [hc] at hpre
    exact Bool.noConfusion hpre
  · exact absurd hpre (by decide)
  · exact Or.inl h
  · exact Or.inr (Or.inl h)
  · exact Or.inr (Or.inr (Or.inl h))
  · exact Or.inr (Or.inr (Or.inr h))
  · rw [startsHash2_false_of_head t (by decide) (by decide)] at hpre
    exact Bool.noConfusion hpre
  · rw [startsHash2_false_of_head t (by decide) (by decide)] at hpre
    exact Bool.noConfusion hpre

/-- C5 counterexample: a tailored-content object whose skills mapping is
present and non-empty but maps its only category to an empty skill list is
truthy, so the agent still emits the `'## Skills'` banner into the markup
(with no category rows), and the generated document carries the SKILLS
banner — the claim's extension of the omission law to this case fails. -/
theorem c5_counterexample :
    truthy (some [((str "Languages" : Str), ([] : List Str))]) = true ∧
    str "## Skills" ∈
      resumeParts
        ⟨some (str "Jane Doe"),
         some ⟨some (str "555-1000"), none, none, some (str "jane@x.com")⟩⟩
        ⟨some [(str "Languages", [])], none, none, none⟩ ∧
    processLines
        (resumeParts
          ⟨some (str "Jane Doe"),
           some ⟨some (str "555-1000"), none, none, some (str "jane@x.com")⟩⟩
          ⟨some [(str "Languages", [])], none, none, none⟩) =
      some [Block.titlePara (str "Jane Doe"),
            Block.contactPara (str "555-1000 | jane@x.com"),
            Block.skillsBanner] := by
  refine ⟨?_, ?_, ?_⟩ <;> decide

/-- C5 as amended: for every identity record (whose rendered contact line
does not itself strip to a `'## '`-prefixed line) and tailored content, a
falsy (absent or empty) skills / experience / projects / education entry
means the corresponding section banner appears neither among the emitted
markup lines nor (as the corresponding banner block) in the generated
document.  (A present, non-empty skills mapping whose categories are all
empty is truthy and is not covered: it still yields the banner, as the
counterexample shows.) -/
theorem c5_omission (p : UserProfile) (tc : TailoredContent)
    (hc : pyStartsWith (str "## ") (pyStrip (formatContact (p.contact.getD {}))) = false) :
    (truthy tc.tailored_skills = false →
      str "## Skills" ∉ resumeParts p tc ∧
      ∀ bs, processLines (resumeParts p tc) = some bs → Block.skillsBanner ∉ bs) ∧
    (truthy tc.tailored_experience = false →
      str "## Experience" ∉ resumeParts p tc ∧
      ∀ bs, processLines (resumeParts p tc) = some bs →
        Block.sectionBanner (str "EXPERIENCE") ∉ bs) ∧
    (truthy tc.tailored_projects = false →
      str "## Projects" ∉ resumeParts p tc ∧
      ∀ bs, processLines (resumeParts p tc) = some bs →
        Block.sectionBanner (str "PROJECTS") ∉ bs) ∧
    (truthy tc.education = false →
      str "## Education" ∉ resumeParts p tc ∧
      ∀ bs, processLines (resumeParts p tc) = some bs →
        Block.sectionBanner (str "EDUCATION") ∉ bs) := by
  refine ⟨fun hf => ⟨?_, ?_⟩, fun hf => ⟨?_, ?_⟩, fun hf => ⟨?_, ?_⟩, fun hf => ⟨?_, ?_⟩⟩
  · exact banner_not_mem_of hc ⟨str "Skills", rfl⟩ (by decide)
      (fun _ => hf) (fun h => absurd h (by decide))
      (fun h => absurd h (by decide)) (fun h => absurd h (by decide))
  · intro bs hbs hmem
    obtain ⟨l, hl, hpre, hskl⟩ :=
      (processLinesF_banner_source ((resumeParts p tc).length + 1)
        (resumeParts p tc) bs (by omega) hbs).1 hmem
    rcases stripped_hash2_cases hc hl hpre with ⟨rfl, htr⟩ | ⟨rfl, htr⟩ | ⟨rfl, htr⟩ | ⟨rfl, htr⟩
    · rw [hf] at htr
      exact Bool.noConfusion htr
    · exact absurd hskl (by decide)
    · exact absurd hskl (by decide)
    · exact absurd hskl (by decide)
  · exact banner_not_mem_of hc ⟨str "Experience", rfl⟩ (by decide)
      (fun h => absurd h (by decide)) (fun _ => hf)
      (fun h => absurd h (by decide)) (fun h => absurd h (by decide))
  · intro bs hbs hmem
    obtain ⟨l, hl, hpre, hns, ht⟩ :=
      (processLinesF_banner_source ((resumeParts p tc).length + 1)
        (resumeParts p tc) bs (by omega) hbs).2 (str "EXPERIENCE") hmem
    rcases stripped_hash2_cases hc hl hpre with ⟨rfl, htr⟩ | ⟨rfl, htr⟩ | ⟨rfl, htr⟩ | ⟨rfl, htr⟩
    · exact absurd hns (by decide)
    · rw [hf] at htr
      exact Bool.noConfusion htr
    · exact absurd ht (by decide)
    · exact absurd ht (by decide)
  · exact banner_not_mem_of hc ⟨str "Projects", rfl⟩ (by decide)
      (fun h => absurd h (by decide)) (fun h => absurd h (by decide))
      (fun _ => hf) (fun h => absurd h (by decide))
  · intro bs hbs hmem
    obtain ⟨l, hl, hpre, hns, ht⟩ :=
      (processLinesF_banner_source ((resumeParts p tc).length + 1)
        (resumeParts p tc) bs (by omega) hbs).2 (str "PROJECTS") hmem
    rcases stripped_hash2_cases hc hl hpre with ⟨rfl, htr⟩ | ⟨rfl, htr⟩ | ⟨rfl, htr⟩ | ⟨rfl, htr⟩
    · exact absurd hns (by decide)
    · exact absurd ht (by decide)
    · rw [hf] at htr
      exact Bool.noConfusion htr
    · exact absurd ht (by decide)
  · exact banner_not_mem_of hc ⟨str "Education", rfl⟩ (by decide)
      (fun h => absurd h (by decide)) (fun h => absurd h (by decide))
      (fun h => absurd h (by decide)) (fun _ => hf)
  · intro bs hbs hmem
    obtain ⟨l, hl, hpre, hns, ht⟩ :=
      (processLinesF_banner_source ((resumeParts p tc).length + 1)
        (resumeParts p tc) bs (by omega) hbs).2 (str "EDUCATION") hmem
    rcases stripped_hash2_cases hc hl hpre with ⟨rfl, htr⟩ | ⟨rfl, htr⟩ | ⟨rfl, htr⟩ | ⟨rfl, htr⟩
    · exact absurd hns (by decide)
    · exact absurd ht (by decide)
    · exact absurd ht (by decide)
    · rw [hf] at htr
      exact Bool.noConfusion htr

/-- Witness for C5 at a concrete profile and an all-absent tailored content. -/
theorem c5_omission_witness :
    str "## Skills" ∉
      resumeParts
        ⟨some (str "Jane Doe"),
         some ⟨some (str "555-1000"), none, none, some (str "jane@x.com")⟩⟩
        ⟨none, none, none, none⟩ ∧
    ∀ bs, processLines
        (resumeParts
          ⟨some (str "Jane Doe"),
           some ⟨some (str "555-1000"), none, none, some (str "jane@x.com")⟩⟩
          ⟨none, none, none, none⟩) = some bs →
      Block.skillsBanner ∉ bs :=
  (c5_omission
    ⟨some (str "Jane Doe"),
     some ⟨some (str "555-1000"), none, none, some (str "jane@x.com")⟩⟩
    ⟨none, none, none, none⟩ (by decide)).1 (by decide)

/- ### C3: computing the sentinel-header rendering on well-formed lines -/

/-- "C with every `'*'` character removed", the claim's phrasing. -/
def starsRemoved (s : Str) : Str := s.filter (fun c => c != '*')

theorem pyStartsWith_cons2_ne {a b : Char} {sep' : Str} {x y : Char} {xs : Str}
    (h : b ≠ y) : pyStartsWith (a :: b :: sep') (x :: y :: xs) = false := by
  simp only [pyStartsWith, Bool.and_eq_false_iff, beq_eq_false_iff_ne, ne_eq]
  right
  left
  exact h

theorem pySplitOnce_sepPrefix {sep t : Str} (hsep : sep ≠ []) :
    pySplitOnce sep (sep ++ t) = some ([], t) := by
  have hs : pyStartsWith sep (sep ++ t) = true :=
    pyStartsWith_eq_true_iff.mpr ⟨t, rfl⟩
  rw [pySplitOnce_of_startsWith hsep hs, List.drop_left]

/-- Scanning one character that cannot start the separator. -/
theorem pySplitOnce_step {sep : Str} {c : Char} {t : Str}
    (h : pyStartsWith sep (c :: t) = false) :
    pySplitOnce sep (c :: t) = (pySplitOnce sep t).map (fun q => (c :: q.1, q.2)) :=
  pySplitOnce_cons_of_not_startsWith h

theorem charFree_append {c : Char} {s t : Str} (hs : ∀ x ∈ s, x ≠ c)
    (ht : ∀ x ∈ t, x ≠ c) : ∀ x ∈ s ++ t, x ≠ c := by
  intro x hx
  rcases List.mem_append.mp hx with h | h
  · exact hs x h
  · exact ht x h

/-- First occurrence of the sentinel in a well-formed entry-header line. -/
theorem sentinel_once (A B C : Str) (hA : ∀ x ∈ A, x ≠ '|') (hB : ∀ x ∈ B, x ≠ '|') :
    pySplitOnce ('|' :: '|' :: ['|'])
      ('*' :: '*' :: (A ++ ('*' :: '*' :: ' ' :: '|' :: ' ' ::
        (B ++ (' ' :: '|' :: '|' :: '|' :: ' ' :: C))))) =
    some ('*' :: '*' :: (A ++ ('*' :: '*' :: ' ' :: '|' :: ' ' :: (B ++ [' ']))),
      ' ' :: C) := by
  have h0 : pySplitOnce ('|' :: '|' :: ['|']) ('|' :: '|' :: '|' :: ' ' :: C) =
      some ([], ' ' :: C) := by
    have := @pySplitOnce_sepPrefix ('|' :: '|' :: ['|']) (' ' :: C) (by simp)
    simpa using this
  have h1 : pySplitOnce ('|' :: '|' :: ['|']) (' ' :: '|' :: '|' :: '|' :: ' ' :: C) =
      some ([' '], ' ' :: C) := by
    rw [pySplitOnce_step (pyStartsWith_cons_head_ne (by decide)), h0]
    rfl
  have h2 : pySplitOnce ('|' :: '|' :: ['|'])
      (B ++ (' ' :: '|' :: '|' :: '|' :: ' ' :: C)) =
      some (B ++ [' '], ' ' :: C) := by
    rw [pySplitOnce_append_left hB, h1]
    rfl
  have h3 : pySplitOnce ('|' :: '|' :: ['|'])
      ('*' :: '*' :: ' ' :: '|' :: ' ' :: (B ++ (' ' :: '|' :: '|' :: '|' :: ' ' :: C))) =
      some ('*' :: '*' :: ' ' :: '|' :: ' ' :: (B ++ [' ']), ' ' :: C) := by
    rw [pySplitOnce_step (pyStartsWith_cons_head_ne (by decide)),
      pySplitOnce_step (pyStartsWith_cons_head_ne (by decide)),
      pySplitOnce_step (pyStartsWith_cons_head_ne (by decide)),
      pySplitOnce_step (pyStartsWith_cons2_ne (by decide)),
      pySplitOnce_step (pyStartsWith_cons_head_ne (by decide)), h2]
    rfl
  have h4 : pySplitOnce ('|' :: '|' :: ['|'])
      (A ++ ('*' :: '*' :: ' ' :: '|' :: ' ' ::
        (B ++ (' ' :: '|' :: '|' :: '|' :: ' ' :: C)))) =
      some (A ++ ('*' :: '*' :: ' ' :: '|' :: ' ' :: (B ++ [' '])), ' ' :: C) := by
    rw [pySplitOnce_append_left hA, h3]
    rfl
  rw [pySplitOnce_step (pyStartsWith_cons_head_ne (by decide)),
    pySplitOnce_step (pyStartsWith_cons_head_ne (by decide)), h4]
  rfl

/-- No sentinel in a pipe-free string preceded by a space. -/
theorem sentinel_none (C : Str) (hC : ∀ x ∈ C, x ≠ '|') :
    pySplitOnce ('|' :: '|' :: ['|']) (' ' :: C) = none := by
  have : ∀ x ∈ (' ' :: C), x ≠ '|' := by
    intro x hx
    rcases List.mem_cons.mp hx with rfl | h
    · decide
    · exact hC x h
  exact pySplitOnce_none_of_headFree this

theorem pyReplace_of_no_occurrence {sep : Str} (hsep : sep ≠ []) {s : Str}
    (h : pySplitOnce sep s = none) : pyReplace sep [] s = s := by
  unfold pyReplace
  rw [pySplit_eq hsep, h, pyJoin_nil_eq_flatten]
  simp

/-- The sentinel split of a well-formed entry-header line. -/
theorem sentinel_split (A B C : Str) (hA : ∀ x ∈ A, x ≠ '|')
    (hB : ∀ x ∈ B, x ≠ '|') (hC : ∀ x ∈ C, x ≠ '|') :
    pySplit ('|' :: '|' :: ['|'])
      ('*' :: '*' :: (A ++ ('*' :: '*' :: ' ' :: '|' :: ' ' ::
        (B ++ (' ' :: '|' :: '|' :: '|' :: ' ' :: C))))) =
    ['*' :: '*' :: (A ++ ('*' :: '*' :: ' ' :: '|' :: ' ' :: (B ++ [' ']))),
     ' ' :: C] := by
  rw [pySplit_eq (by simp), sentinel_once A B C hA hB]
  show ('*' :: '*' :: (A ++ ('*' :: '*' :: ' ' :: '|' :: ' ' :: (B ++ [' '])))) ::
      pySplit ('|' :: '|' :: ['|']) (' ' :: C) = _
  rw [pySplit_eq (by simp), sentinel_none C hC]

/-- Removing the `'**'` pairs from the left piece of the header. -/
theorem star2_replace_left (A B : Str) (hA : ∀ x ∈ A, x ≠ '*')
    (hB : ∀ x ∈ B, x ≠ '*') :
    pyReplace ('*' :: ['*']) []
      ('*' :: '*' :: (A ++ ('*' :: '*' :: ' ' :: '|' :: ' ' :: B))) =
    A ++ (' ' :: '|' :: ' ' :: B) := by
  have hx1 : pySplitOnce ('*' :: ['*'])
      ('*' :: '*' :: (A ++ ('*' :: '*' :: ' ' :: '|' :: ' ' :: B))) =
      some ([], A ++ ('*' :: '*' :: ' ' :: '|' :: ' ' :: B)) := by
    have := @pySplitOnce_sepPrefix ('*' :: ['*'])
      (A ++ ('*' :: '*' :: ' ' :: '|' :: ' ' :: B)) (by simp)
    simpa using this
  have hx2i : pySplitOnce ('*' :: ['*']) ('*' :: '*' :: ' ' :: '|' :: ' ' :: B) =
      some ([], ' ' :: '|' :: ' ' :: B) := by
    have := @pySplitOnce_sepPrefix ('*' :: ['*'])
      (' ' :: '|' :: ' ' :: B) (by simp)
    simpa using this
  have hx2 : pySplitOnce ('*' :: ['*'])
      (A ++ ('*' :: '*' :: ' ' :: '|' :: ' ' :: B)) =
      some (A, ' ' :: '|' :: ' ' :: B) := by
    rw [pySplitOnce_append_left hA, hx2i]
    simp
  have hx3 : pySplitOnce ('*' :: ['*']) (' ' :: '|' :: ' ' :: B) = none := by
    refine pySplitOnce_none_of_headFree ?_
    intro x hx
    rcases List.mem_cons.mp hx with rfl | hx
    · decide
    rcases List.mem_cons.mp hx with rfl | hx
    · decide
    rcases List.mem_cons.mp hx with rfl | hx
    · decide
    · exact hB x hx
  unfold pyReplace
  rw [pySplit_eq (by simp), hx1]
  show pyJoin [] ([] :: pySplit ('*' :: ['*']) (A ++ ('*' :: '*' :: ' ' :: '|' :: ' ' :: B))) = _
  rw [pySplit_eq (by simp), hx2]
  show pyJoin [] ([] :: A :: pySplit ('*' :: ['*']) (' ' :: '|' :: ' ' :: B)) = _
  rw [pySplit_eq (by simp), hx3, pyJoin_nil_eq_flatten]
  simp

/-- Splitting the cleaned left piece on every `'|'`. -/
theorem pipe_split_left (A B : Str) (hA : ∀ x ∈ A, x ≠ '|')
    (hB : ∀ x ∈ B, x ≠ '|') :
    pySplit ['|'] (A ++ (' ' :: '|' :: ' ' :: B)) = [A ++ [' '], ' ' :: B] := by
  have hp0 : pySplitOnce ['|'] ('|' :: ' ' :: B) = some ([], ' ' :: B) := by
    have := @pySplitOnce_sepPrefix ['|'] (' ' :: B) (by simp)
    simpa using this
  have hp1 : pySplitOnce ['|'] (' ' :: '|' :: ' ' :: B) = some ([' '], ' ' :: B) := by
    rw [pySplitOnce_step (pyStartsWith_cons_head_ne (by decide)), hp0]
    rfl
  have hp2 : pySplitOnce ['|'] (A ++ (' ' :: '|' :: ' ' :: B)) =
      some (A ++ [' '], ' ' :: B) := by
    rw [pySplitOnce_append_left hA, hp1]
    simp
  have hp3 : pySplitOnce ['|'] (' ' :: B) = none := by
    refine pySplitOnce_none_of_headFree ?_
    intro x hx
    rcases List.mem_cons.mp hx with rfl | hx
    · decide
    · exact hB x hx
  rw [pySplit_eq (by simp), hp2]
  show (A ++ [' ']) :: pySplit ['|'] (' ' :: B) = _
  rw [pySplit_eq (by simp), hp3]

theorem strip_cleanedLeft (A B : Str) (hA3 : pyStrip A = A) (hA4 : A ≠ [])
    (hB3 : pyStrip B = B) (hB4 : B ≠ []) :
    pyStrip (A ++ (' ' :: '|' :: ' ' :: B)) = A ++ (' ' :: '|' :: ' ' :: B) := by
  obtain ⟨a, A₁, rfl, ha⟩ := exists_head_of_stripped hA3 hA4
  obtain ⟨B₁, y, rfl, hy⟩ := exists_last_of_stripped hB3 hB4
  have hshape : (a :: A₁) ++ (' ' :: '|' :: ' ' :: (B₁ ++ [y])) =
      a :: (A₁ ++ (' ' :: '|' :: ' ' :: B₁)) ++ [y] := by
    simp [List.append_assoc]
  rw [hshape]
  exact pyStrip_sandwich ha hy _

theorem strip_leftRaw (A B : Str) (hB3 : pyStrip B = B) (hB4 : B ≠ []) :
    pyStrip ('*' :: '*' :: (A ++ ('*' :: '*' :: ' ' :: '|' :: ' ' :: (B ++ [' '])))) =
    '*' :: '*' :: (A ++ ('*' :: '*' :: ' ' :: '|' :: ' ' :: B)) := by
  have hre : '*' :: '*' :: (A ++ ('*' :: '*' :: ' ' :: '|' :: ' ' :: (B ++ [' ']))) =
      ('*' :: '*' :: (A ++ ('*' :: '*' :: ' ' :: '|' :: ' ' :: B))) ++ [' '] := by
    simp [List.append_assoc]
  rw [hre, pyStrip_append_space (by decide)]
  obtain ⟨B₁, y, rfl, hy⟩ := exists_last_of_stripped hB3 hB4
  have hsh : '*' :: '*' :: (A ++ ('*' :: '*' :: ' ' :: '|' :: ' ' :: (B₁ ++ [y]))) =
      '*' :: ('*' :: (A ++ ('*' :: '*' :: ' ' :: '|' :: ' ' :: B₁))) ++ [y] := by
    simp [List.append_assoc]
  rw [hsh]
  exact pyStrip_sandwich (by decide) hy _

theorem star2_replace_wrapped (D : Str) (hD : ∀ x ∈ D, x ≠ '*') (hD4 : D ≠ []) :
    pyReplace ('*' :: ['*']) [] ('*' :: D ++ ['*']) = '*' :: D ++ ['*'] := by
  apply pyReplace_of_no_occurrence (by simp)
  obtain ⟨d, D', rfl⟩ : ∃ d D', D = d :: D' := by
    cases D with
    | nil => exact absurd rfl hD4
    | cons d D' => exact ⟨d, D', rfl⟩
  have hne : pyStartsWith ('*' :: ['*']) ('*' :: d :: (D' ++ ['*'])) = false :=
    pyStartsWith_cons2_ne (fun h => (hD d (by simp)) h.symm)
  show pySplitOnce ('*' :: ['*']) ('*' :: d :: (D' ++ ['*'])) = none
  rw [pySplitOnce_step hne,
    pySplitOnce_step (pyStartsWith_cons_head_ne (hD d (by simp))),
    pySplitOnce_append_left (fun x hx => hD x (by simp [hx])),
    show pySplitOnce ('*' :: ['*']) ['*'] = none from by decide]
  rfl

theorem star_replace_wrapped (D : Str) (hD : ∀ x ∈ D, x ≠ '*') :
    pyReplace ['*'] [] ('*' :: D ++ ['*']) = D := by
  rw [show ('*' :: D ++ ['*'] : Str) = '*' :: (D ++ ['*']) from by simp]
  have h1 : pySplitOnce ['*'] ('*' :: (D ++ ['*'])) = some ([], D ++ ['*']) := by
    have := @pySplitOnce_sepPrefix ['*'] (D ++ ['*']) (by simp)
    simpa using this
  have h0 : pySplitOnce ['*'] ['*'] = some ([], []) := by decide
  have h2 : pySplitOnce ['*'] (D ++ ['*']) = some (D, []) := by
    rw [pySplitOnce_append_left hD, h0]
    simp
  unfold pyReplace
  rw [pySplit_eq (by simp), h1]
  show pyJoin [] ([] :: pySplit ['*'] (D ++ ['*'])) = D
  rw [pySplit_eq (by simp), h2]
  show pyJoin [] ([] :: D :: pySplit ['*'] []) = D
  rw [show pySplit ['*'] ([] : Str) = [[]] from by decide, pyJoin_nil_eq_flatten]
  simp

theorem starsRemoved_of_starFree {C : Str} (hC : ∀ x ∈ C, x ≠ '*') :
    starsRemoved C = C :=
  List.filter_eq_self.mpr (fun a ha => bne_iff_ne.mpr (hC a ha))

theorem starsRemoved_wrapped (D : Str) (hD : ∀ x ∈ D, x ≠ '*') :
    starsRemoved ('*' :: D ++ ['*']) = D := by
  have h1 : List.filter (fun c => c != '*') D = D :=
    List.filter_eq_self.mpr (fun a ha => bne_iff_ne.mpr (hD a ha))
  simp [starsRemoved, List.filter_append, h1]

/-- C3 as amended: for a sanitized two-part entry header — `A` and `B` free
of pipes, asterisks, and edge whitespace (non-empty), `C` free of pipes and
either asterisk-free with no edge whitespace, or a single-asterisk-wrapped
non-empty trimmed text — the rendered left cell is a bold run exactly `A`
followed by a plain run `' | ' + B`, and the right cell is one run whose
text is `C` with every asterisk removed (then stripped), italic exactly
when `C` both starts and ends with `'*'`. -/
theorem c3_sentinel_rendering (A B C : Str)
    (hA1 : ∀ x ∈ A, x ≠ '|') (hA2 : ∀ x ∈ A, x ≠ '*')
    (hA3 : pyStrip A = A) (hA4 : A ≠ [])
    (hB1 : ∀ x ∈ B, x ≠ '|') (hB2 : ∀ x ∈ B, x ≠ '*')
    (hB3 : pyStrip B = B) (hB4 : B ≠ [])
    (hC1 : ∀ x ∈ C, x ≠ '|')
    (hC2 : ((∀ x ∈ C, x ≠ '*') ∧ pyStrip C = C) ∨
           (∃ D, C = '*' :: D ++ ['*'] ∧ (∀ x ∈ D, x ≠ '*') ∧
             pyStrip D = D ∧ D ≠ [])) :
    entryHeaderBlock (str "**" ++ A ++ str "** | " ++ B ++ str " ||| " ++ C) =
      some (Block.entryTable
        [⟨A, true, false⟩, ⟨str " | " ++ B, false, false⟩]
        ⟨pyStrip (starsRemoved C), false,
         pyStartsWith (str "*") C && pyEndsWith (str "*") C⟩) := by
  have hline : str "**" ++ A ++ str "** | " ++ B ++ str " ||| " ++ C =
      '*' :: '*' :: (A ++ ('*' :: '*' :: ' ' :: '|' :: ' ' ::
        (B ++ (' ' :: '|' :: '|' :: '|' :: ' ' :: C)))) := by
    rw [show (str "**" : Str) = ['*', '*'] from rfl,
      show (str "** | " : Str) = ['*', '*', ' ', '|', ' '] from rfl,
      show (str " ||| " : Str) = [' ', '|', '|', '|', ' '] from rfl]
    simp [List.append_assoc]
  have hsplit : pySplit (str "|||")
      ('*' :: '*' :: (A ++ ('*' :: '*' :: ' ' :: '|' :: ' ' ::
        (B ++ (' ' :: '|' :: '|' :: '|' :: ' ' :: C))))) =
      ['*' :: '*' :: (A ++ ('*' :: '*' :: ' ' :: '|' :: ' ' :: (B ++ [' ']))),
       ' ' :: C] :=
    sentinel_split A B C hA1 hB1 hC1
  have hstripL : pyStrip
      ('*' :: '*' :: (A ++ ('*' :: '*' :: ' ' :: '|' :: ' ' :: (B ++ [' '])))) =
      '*' :: '*' :: (A ++ ('*' :: '*' :: ' ' :: '|' :: ' ' :: B)) :=
    strip_leftRaw A B hB3 hB4
  have hstripR : pyStrip (' ' :: C) = C := by
    rw [pyStrip_cons_space (by decide)]
    rcases hC2 with ⟨_, h⟩ | ⟨D, rfl, _, _, _⟩
    · exact h
    · exact pyStrip_sandwich (by decide) (by decide) D
  have hclean : pyReplace (str "**") []
      ('*' :: '*' :: (A ++ ('*' :: '*' :: ' ' :: '|' :: ' ' :: B))) =
      A ++ (' ' :: '|' :: ' ' :: B) :=
    star2_replace_left A B hA2 hB2
  have hstripClean : pyStrip (A ++ (' ' :: '|' :: ' ' :: B)) =
      A ++ (' ' :: '|' :: ' ' :: B) :=
    strip_cleanedLeft A B hA3 hA4 hB3 hB4
  have hpipe : pySplit (str "|") (A ++ (' ' :: '|' :: ' ' :: B)) =
      [A ++ [' '], ' ' :: B] :=
    pipe_split_left A B hA1 hB1
  have hstripP0 : pyStrip (A ++ [' ']) = A := by
    rw [show (A ++ [' '] : Str) = A ++ [' '] from rfl,
      pyStrip_append_space (by decide), hA3]
  have hstripP1 : pyStrip (' ' :: B) = B := by
    rw [pyStrip_cons_space (by decide), hB3]
  have hfinal : pyStrip (pyReplace (str "*") [] (pyReplace (str "**") [] C)) =
      pyStrip (starsRemoved C) := by
    rcases hC2 with ⟨hCs, _⟩ | ⟨D, rfl, hD, hDs, hD4⟩
    · have h2 : pyReplace (str "**") [] C = C :=
        pyReplace_of_no_occurrence (by decide)
          (@pySplitOnce_none_of_headFree '*' ['*'] C hCs)
      have h1 : pyReplace (str "*") [] C = C :=
        pyReplace_of_no_occurrence (by decide)
          (@pySplitOnce_none_of_headFree '*' [] C hCs)
      rw [h2, h1, starsRemoved_of_starFree hCs]
    · have h2 : pyReplace (str "**") [] ('*' :: D ++ ['*']) = '*' :: D ++ ['*'] :=
        star2_replace_wrapped D hD hD4
      have h1 : pyReplace (str "*") [] ('*' :: D ++ ['*']) = D :=
        star_replace_wrapped D hD
      rw [h2, h1, starsRemoved_wrapped D hD]
  rw [hline]
  unfold entryHeaderBlock
  rw [hsplit]
  show some (Block.entryTable _ _) = _
  rw [hstripL, hstripR, hclean, hstripClean, hpipe]
  show some (Block.entryTable
      [⟨pyStrip (A ++ [' ']), true, false⟩,
       ⟨str " | " ++ pyStrip (' ' :: B), false, false⟩]
      ⟨pyStrip (pyReplace (str "*") [] (pyReplace (str "**") [] C)), false,
       pyStartsWith (str "*") C && pyEndsWith (str "*") C⟩) = _
  rw [hstripP0, hstripP1, hfinal]

/-- C3 counterexample: the claim fails as stated, at three concrete
EntryHeaderTwoColumn lines with pipe-free A, B, C.  (i) For A = `'a**b'`
the bold run is `'ab'`, not exactly A — the `'**'`-cleanup also eats
asterisks inside A.  (ii) For C = `'**2020**'` (double-asterisk-wrapped, so
not single-asterisk emphasis) the right run is italic anyway — the code only
tests first and last characters.  (iii) For C = `'* x*'` the right run text
is `'x'`, not `' x'` = C with every `'*'` removed — the code also strips
whitespace afterwards. -/
theorem c3_counterexample :
    (entryHeaderBlock (str "**a**b** | c ||| d") =
        some (Block.entryTable
          [⟨str "ab", true, false⟩, ⟨str " | c", false, false⟩]
          ⟨str "d", false, false⟩) ∧
      str "ab" ≠ str "a**b") ∧
    (entryHeaderBlock (str "**A** | B ||| **2020**") =
        some (Block.entryTable
          [⟨str "A", true, false⟩, ⟨str " | B", false, false⟩]
          ⟨str "2020", false, true⟩) ∧
      pyStartsWith (str "**") (str "**2020**") = true) ∧
    (entryHeaderBlock (str "**A** | B ||| * x*") =
        some (Block.entryTable
          [⟨str "A", true, false⟩, ⟨str " | B", false, false⟩]
          ⟨str "x", false, true⟩) ∧
      str "x" ≠ starsRemoved (str "* x*")) := by
  refine ⟨⟨?_, ?_⟩, ⟨?_, ?_⟩, ⟨?_, ?_⟩⟩ <;> decide

/-- Witness for C3's amended statement at a concrete well-formed header. -/
theorem c3_sentinel_rendering_witness :
    entryHeaderBlock (str "**" ++ str "Senior Engineer" ++ str "** | " ++
        str "Acme" ++ str " ||| " ++ str "*Jan 2020*") =
      some (Block.entryTable
        [⟨str "Senior Engineer", true, false⟩, ⟨str " | " ++ str "Acme", false, false⟩]
        ⟨pyStrip (starsRemoved (str "*Jan 2020*")), false,
         pyStartsWith (str "*") (str "*Jan 2020*") &&
           pyEndsWith (str "*") (str "*Jan 2020*")⟩) :=
  c3_sentinel_rendering (str "Senior Engineer") (str "Acme") (str "*Jan 2020*")
    (by decide) (by decide) (by decide) (by decide)
    (by decide) (by decide) (by decide) (by decide)
    (by decide)
    (Or.inr ⟨str "Jan 2020", by decide, by decide, by decide, by decide⟩)

end AiResume
